import Mathlib

/-!
Verification of the stream parser of nodeJavaDeserialization (src/parser.js).

The embedding models the JavaScript parser shallowly:
* the byte buffer is a `List Nat` of byte values, the cursor a `Nat`;
* the handle table (`this.handles`, a JS array indexed from 0x7e0000) is a
  dense `List Cell` indexed by `handle - 0x7e0000`;
* JS heap objects that receive a handle and are mutated after registration
  (class descriptors, objects, arrays, enum constants) are arena cells in the
  handle table; the value referring to them is `Value.vRef handle`, so JS
  object identity is index identity;
* JS strings are kept as the raw byte lists of the regions they decode
  (UTF-8 decoding is immaterial to the properties below);
* IEEE floats and doubles are kept as their raw big-endian bytes;
* fallible code runs in `M α = PState → Except Err (α × PState)`;
* unbounded recursion is handled by a fuel parameter: every mutually
  recursive parser function spends one unit of fuel per call;
* the process-wide registries of custom class-data parsers and
  post-processors are a parameter `Registry`; registered entries are modelled
  as state transformers returning a property map (the JS functions return
  fresh objects);
* JS property access on values that are not objects of the expected shape
  (for example reading `.super` of `null` while walking a class chain) is
  collapsed to the single error `Err.typeError`; in the JS source all such
  paths also abort the parse, only the error message differs.
-/

set_option maxRecDepth 4000

namespace NJD

/-- Decidable equality of naturals through the binary `Nat.beq`, so that
closed-term evaluation of `decide` never peels large literals (such as the
handle base `0x7e0000`) into unary successors. -/
instance (priority := 2000) : DecidableEq Nat := fun a b =>
  decidable_of_iff ((a == b) = true) (by simp)

/-- Decidable equality of integers through `BEq`, for the same reason. -/
instance (priority := 2000) : DecidableEq Int := fun a b =>
  decidable_of_iff ((a == b) = true) (by simp)

/-- Errors thrown by the parser.  They mirror the distinct `throw` sites of
src/parser.js, plus `outOfFuel` for fuel exhaustion of the embedding (the JS
original would recurse without bound there). -/
inductive Err where
  | prematureEnd (pos : Nat)
  | badMagic
  | badVersion
  | unknownType (tc : Int)
  | notAllowed (name : String)
  | noHandler (name : String)
  | longUtfTooBig
  | version1External
  | unknownFlags (flags : Nat)
  | unknownPrimType (t : Nat)
  | typeError
  | rangeError
  | assertFailed
  | outOfFuel
  deriving DecidableEq, Repr

/-- Primitive field values, as produced by the `primHandlers` table.
Floats and doubles keep their raw big-endian bytes; `pChar` keeps the
16-bit code unit; `pLong` keeps the two unsigned 32-bit halves exactly as
`Long.fromBits(low, high)` receives them. -/
inductive Prim where
  | pByte (i : Int)
  | pShort (i : Int)
  | pInt (i : Int)
  | pLong (hi lo : Nat)
  | pChar (c : Nat)
  | pFloat (bytes : List Nat)
  | pDouble (bytes : List Nat)
  | pBool (b : Bool)
  deriving DecidableEq, Repr

/-- Decoded values.  `vRef h` denotes the heap object stored in the handle
table at handle `h` (class descriptor, object, array or enum constant);
`vUndefined` is the JS `undefined` produced by unguarded lookups;
`vEnd` is the distinguished `endBlock` sentinel; `vList` is a plain
(non handle-registered) JS array such as an annotation block. -/
inductive Value where
  | vNull
  | vUndefined
  | vEnd
  | vPrim (p : Prim)
  | vStr (s : List Nat)
  | vBlock (b : List Nat)
  | vList (l : List Value)
  | vRef (h : Nat)

mutual

/-- Decidable equality of values (mutually with lists of values). -/
def decEqV : (a b : Value) → Decidable (a = b)
  | .vNull, .vNull => isTrue rfl
  | .vUndefined, .vUndefined => isTrue rfl
  | .vEnd, .vEnd => isTrue rfl
  | .vPrim x, .vPrim y =>
      match decEq x y with
      | isTrue h => isTrue (h ▸ rfl)
      | isFalse h => isFalse (fun he => h (Value.vPrim.inj he))
  | .vStr x, .vStr y =>
      match decEq x y with
      | isTrue h => isTrue (h ▸ rfl)
      | isFalse h => isFalse (fun he => h (Value.vStr.inj he))
  | .vBlock x, .vBlock y =>
      match decEq x y with
      | isTrue h => isTrue (h ▸ rfl)
      | isFalse h => isFalse (fun he => h (Value.vBlock.inj he))
  | .vList l, .vList m =>
      match decEqLV l m with
      | isTrue h => isTrue (h ▸ rfl)
      | isFalse h => isFalse (fun he => h (Value.vList.inj he))
  | .vRef x, .vRef y =>
      match decEq x y with
      | isTrue h => isTrue (h ▸ rfl)
      | isFalse h => isFalse (fun he => h (Value.vRef.inj he))
  | .vNull, .vUndefined => isFalse nofun
  | .vNull, .vEnd => isFalse nofun
  | .vNull, .vPrim _ => isFalse nofun
  | .vNull, .vStr _ => isFalse nofun
  | .vNull, .vBlock _ => isFalse nofun
  | .vNull, .vList _ => isFalse nofun
  | .vNull, .vRef _ => isFalse nofun
  | .vUndefined, .vNull => isFalse nofun
  | .vUndefined, .vEnd => isFalse nofun
  | .vUndefined, .vPrim _ => isFalse nofun
  | .vUndefined, .vStr _ => isFalse nofun
  | .vUndefined, .vBlock _ => isFalse nofun
  | .vUndefined, .vList _ => isFalse nofun
  | .vUndefined, .vRef _ => isFalse nofun
  | .vEnd, .vNull => isFalse nofun
  | .vEnd, .vUndefined => isFalse nofun
  | .vEnd, .vPrim _ => isFalse nofun
  | .vEnd, .vStr _ => isFalse nofun
  | .vEnd, .vBlock _ => isFalse nofun
  | .vEnd, .vList _ => isFalse nofun
  | .vEnd, .vRef _ => isFalse nofun
  | .vPrim _, .vNull => isFalse nofun
  | .vPrim _, .vUndefined => isFalse nofun
  | .vPrim _, .vEnd => isFalse nofun
  | .vPrim _, .vStr _ => isFalse nofun
  | .vPrim _, .vBlock _ => isFalse nofun
  | .vPrim _, .vList _ => isFalse nofun
  | .vPrim _, .vRef _ => isFalse nofun
  | .vStr _, .vNull => isFalse nofun
  | .vStr _, .vUndefined => isFalse nofun
  | .vStr _, .vEnd => isFalse nofun
  | .vStr _, .vPrim _ => isFalse nofun
  | .vStr _, .vBlock _ => isFalse nofun
  | .vStr _, .vList _ => isFalse nofun
  | .vStr _, .vRef _ => isFalse nofun
  | .vBlock _, .vNull => isFalse nofun
  | .vBlock _, .vUndefined => isFalse nofun
  | .vBlock _, .vEnd => isFalse nofun
  | .vBlock _, .vPrim _ => isFalse nofun
  | .vBlock _, .vStr _ => isFalse nofun
  | .vBlock _, .vList _ => isFalse nofun
  | .vBlock _, .vRef _ => isFalse nofun
  | .vList _, .vNull => isFalse nofun
  | .vList _, .vUndefined => isFalse nofun
  | .vList _, .vEnd => isFalse nofun
  | .vList _, .vPrim _ => isFalse nofun
  | .vList _, .vStr _ => isFalse nofun
  | .vList _, .vBlock _ => isFalse nofun
  | .vList _, .vRef _ => isFalse nofun
  | .vRef _, .vNull => isFalse nofun
  | .vRef _, .vUndefined => isFalse nofun
  | .vRef _, .vEnd => isFalse nofun
  | .vRef _, .vPrim _ => isFalse nofun
  | .vRef _, .vStr _ => isFalse nofun
  | .vRef _, .vBlock _ => isFalse nofun
  | .vRef _, .vList _ => isFalse nofun
termination_by structural a => a

/-- Decidable equality of lists of values. -/
def decEqLV : (l m : List Value) → Decidable (l = m)
  | [], [] => isTrue rfl
  | [], _ :: _ => isFalse nofun
  | _ :: _, [] => isFalse nofun
  | a :: l, b :: m =>
      match decEqV a b, decEqLV l m with
      | isTrue h₁, isTrue h₂ => isTrue (h₁ ▸ h₂ ▸ rfl)
      | isFalse h₁, _ => isFalse (fun he => h₁ (List.cons.inj he).1)
      | _, isFalse h₂ => isFalse (fun he => h₂ (List.cons.inj he).2)
termination_by structural l => l

end

instance : DecidableEq Value := decEqV

/-- A JS object used as a plain dictionary: association list in insertion
order, keys being the byte lists of the JS string keys. -/
abbrev PropMap := List (List Nat × Value)

/-- Field descriptor (`Parser.fieldDesc`): one-byte type code, a field name,
and for type codes `L` and `[` the class-name content item. -/
structure FieldDesc where
  type : Nat
  name : List Nat
  className : Option Value := none
  deriving DecidableEq
  

/-- Class descriptor record.  Fields are `Option` because the JS object is
built incrementally after its handle is registered; `none` models a property
that is still `undefined`. -/
structure DescRec where
  name : List Nat
  serialVersionUID : List Nat
  flags : Option Nat := none
  fields : Option (List FieldDesc) := none
  annotations : Option (List Value) := none
  superD : Option Value := none
  deriving DecidableEq
  

/-- An object under construction: its `class` slot, the `extends` mapping
from class name to the per-class class-data value, and its flattened
enumerable properties. -/
structure ObjRec where
  classD : Value
  extendsM : List (List Nat × PropMap) := []
  fieldsM : PropMap := []
  deriving DecidableEq
  

/-- A decoded array: its `class` slot and its elements in index order. -/
structure ArrRec where
  classD : Value
  elems : List Value := []
  deriving DecidableEq
  

/-- An enum constant: the wrapped constant value and the `class` slot. -/
structure EnumRec where
  constant : Value
  classD : Value
  deriving DecidableEq
  

/-- A slot of the handle table.  `imm v` stores an immutable JS value
directly (strings, `null` placeholders of deferred handles, values
re-registered by the `Class` tag); the other kinds are mutable heap
records addressed by their handle. -/
inductive Cell where
  | imm (v : Value)
  | desc (d : DescRec)
  | obj (o : ObjRec)
  | arr (a : ArrRec)
  | enumc (e : EnumRec)
  deriving DecidableEq
  

/-- First handle value, `0x7e0000` in the JS constructor. -/
def HBASE : Nat := 0x7e0000

/-- Parser state: buffer, cursor, next handle and the handle table. -/
structure PState where
  buf : List Nat
  pos : Nat
  nextHandle : Nat
  handles : List Cell
  deriving DecidableEq
  


instance {e1 a1 : Type} [DecidableEq e1] [DecidableEq a1] : DecidableEq (Except e1 a1) :=
  fun a b => match a, b with
  | .error x, .error y =>
      match decEq x y with
      | isTrue h => isTrue (h ▸ rfl)
      | isFalse h => isFalse fun he => h (Except.error.inj he)
  | .ok x, .ok y =>
      match decEq x y with
      | isTrue h => isTrue (h ▸ rfl)
      | isFalse h => isFalse fun he => h (Except.ok.inj he)
  | .error _, .ok _ => isFalse nofun
  | .ok _, .error _ => isFalse nofun

/-- The parsing monad: state plus exceptions. -/
def M (α : Type) : Type := PState → Except Err (α × PState)

instance : Monad M where
  pure a := fun s => .ok (a, s)
  bind m f := fun s =>
    match m s with
    | .error e => .error e
    | .ok (a, s₁) => f a s₁

/-- Throw an error. -/
def throwE {α : Type} (e : Err) : M α := fun _ => .error e

/-- Read the current state. -/
def getS : M PState := fun s => .ok (s, s)

/-- Replace the cursor. -/
def setPos (p : Nat) : M Unit := fun s => .ok ((), { s with pos := p })

theorem bind_apply {α β : Type} (m : M α) (f : α → M β) (s : PState) :
    (m >>= f) s = match m s with
      | .error e => .error e
      | .ok (a, s₁) => f a s₁ := rfl

theorem pure_apply {α : Type} (a : α) (s : PState) :
    (pure a : M α) s = .ok (a, s) := rfl

theorem map_apply {α β : Type} (g : α → β) (m : M α) (s : PState) :
    (g <$> m) s = match m s with
      | .error e => .error e
      | .ok (a, s₁) => .ok (g a, s₁) := rfl

/-- Byte at an index, `0` out of range (never read out of range). -/
def byteAt (buf : List Nat) (i : Nat) : Nat := (buf.get? i).getD 0

/-- `Parser.step`: advance the cursor by `len`, failing with "premature end
of input" carrying the overshot offset when the new cursor passes the end of
the buffer; returns the old cursor. -/
def step (len : Nat) : M Nat := fun s =>
  if s.buf.length < s.pos + len then .error (.prematureEnd (s.pos + len))
  else .ok (s.pos, { s with pos := s.pos + len })

/-- `Parser.chunk`: a bounds-checked region of `len` bytes. -/
def chunk (len : Nat) : M (List Nat) := do
  let p ← step len
  let s ← getS
  pure ((s.buf.drop p).take len)

def readUInt8 : M Nat := do
  let p ← step 1
  let s ← getS
  pure (byteAt s.buf p)

/-- Two's-complement reinterpretation of an unsigned `w`-bit value. -/
def toSigned (w : Nat) (u : Nat) : Int :=
  if u < 2 ^ (w - 1) then (u : Int) else (u : Int) - 2 ^ w

def readInt8 : M Int := do
  let u ← readUInt8
  pure (toSigned 8 u)

def readUInt16 : M Nat := do
  let p ← step 2
  let s ← getS
  pure (256 * byteAt s.buf p + byteAt s.buf (p + 1))

def readInt16 : M Int := do
  let u ← readUInt16
  pure (toSigned 16 u)

def readUInt32 : M Nat := do
  let p ← step 4
  let s ← getS
  pure (16777216 * byteAt s.buf p + 65536 * byteAt s.buf (p + 1) +
        256 * byteAt s.buf (p + 2) + byteAt s.buf (p + 3))

def readInt32 : M Int := do
  let u ← readUInt32
  pure (toSigned 32 u)

/-- `Parser.readHex`: the raw bytes of the region; the JS hex rendering is a
bijective view of these bytes and is not modelled separately. -/
def readHex (len : Nat) : M (List Nat) := chunk len

/-- `Parser.utf`: short UTF string, 16-bit unsigned big-endian length prefix
followed by that many bytes. -/
def utf : M (List Nat) := do
  let n ← readUInt16
  chunk n

/-- `Parser.utfLong`: 64-bit length prefix; fails hard when the high 32 bits
are non-zero, otherwise reads the low 32-bit length. -/
def utfLong : M (List Nat) := do
  let hi ← readUInt32
  if hi ≠ 0 then throwE .longUtfTooBig
  else do
    let n ← readUInt32
    chunk n

/-- `Parser.magic`: checks STREAM_MAGIC 0xaced. -/
def magic : M Unit := do
  let m ← readUInt16
  if m ≠ 0xaced then throwE .badMagic else pure ()

/-- `Parser.version`: checks protocol version 5. -/
def version : M Unit := do
  let v ← readUInt16
  if v ≠ 5 then throwE .badVersion else pure ()

/-- Insertion-order association update, the semantics of a JS property
assignment `m[k] = v`: overwrite in place when the key exists, else append. -/
def setAssoc {kt bt : Type} [DecidableEq kt] : List (kt × bt) → kt → bt → List (kt × bt)
  | [], k, v => [(k, v)]
  | (k0, v0) :: rest, k, v =>
      if k0 = k then (k0, v) :: rest else (k0, v0) :: setAssoc rest k v

/-- First-occurrence association lookup (JS property read). -/
def lookupA {kt bt : Type} [DecidableEq kt] : List (kt × bt) → kt → Option bt
  | [], _ => none
  | (k0, v0) :: rest, k => if k0 = k then some v0 else lookupA rest k

/-- `Parser.newHandle` as used for immutable values: store the value in the
slot `nextHandle` points at, increment `nextHandle`, return the value. -/
def newHandle (v : Value) : M Value := fun s =>
  .ok (v, { s with handles := s.handles ++ [.imm v], nextHandle := s.nextHandle + 1 })

/-- `Parser.newHandle` as used for mutable heap records: store the fresh
record and return its handle. -/
def allocCell (c : Cell) : M Nat := fun s =>
  .ok (s.nextHandle, { s with handles := s.handles ++ [c], nextHandle := s.nextHandle + 1 })

/-- Apply `f` to the element at index `i` (no-op when out of range).  A
single-pass variant of `get?` plus `set`, preserving sharing of the list. -/
def listModify (f : Cell → Cell) : Nat → List Cell → List Cell
  | _, [] => []
  | 0, c :: rest => f c :: rest
  | i + 1, c :: rest => c :: listModify f i rest

/-- Mutate the heap record addressed by handle `h` (a JS property write on
an object already held in the handle table). -/
def modifyCell (h : Nat) (f : Cell → Cell) : M Unit := fun s =>
  .ok ((), { s with handles := listModify f (h - HBASE) s.handles })

/-- Fill a deferred handle slot (the closure returned by
`Parser.newDeferredHandle`). -/
def fillCell (h : Nat) (c : Cell) : M Unit := fun s =>
  .ok ((), { s with handles := s.handles.set (h - HBASE) c })

def updDesc (f : DescRec → DescRec) : Cell → Cell
  | .desc d => .desc (f d)
  | c => c

def updObj (f : ObjRec → ObjRec) : Cell → Cell
  | .obj o => .obj (f o)
  | c => c

def updArr (f : ArrRec → ArrRec) : Cell → Cell
  | .arr a => .arr (f a)
  | c => c

/-- The value the JS expression `this.handles[h]` denotes for a slot: the
stored value for immutable slots, the object reference (its handle) for heap
records. -/
def Cell.valueAt (h : Nat) : Cell → Value
  | .imm v => v
  | _ => .vRef h

/-- `this.handles[i]` with JS array semantics: any index never assigned
(negative, below 0x7e0000, or at or past `nextHandle`) yields `undefined`. -/
def lookupHandle (s : PState) (i : Int) : Value :=
  if i < (HBASE : Int) then .vUndefined
  else match s.handles.get? (i.toNat - HBASE) with
    | some c => c.valueAt i.toNat
    | none => .vUndefined

/-- Resolve a value expected to be a class descriptor.  JS would read
properties off whatever object the value is; every non-descriptor case aborts
the parse in the source (with varying messages), collapsed here to `none`
(leading to `Err.typeError`). -/
def derefDesc (s : PState) : Value → Option DescRec
  | .vRef h =>
      match s.handles.get? (h - HBASE) with
      | some (.desc d) => some d
      | _ => none
  | _ => none

/-- Truthiness of a big-endian IEEE-754 single: falsy exactly for plus or
minus zero and NaN. -/
def floatTruthy (b : List Nat) : Bool :=
  let b0 := byteAt b 0; let b1 := byteAt b 1; let b2 := byteAt b 2; let b3 := byteAt b 3
  let isZero := (b0 = 0 || b0 = 0x80) && b1 = 0 && b2 = 0 && b3 = 0
  let isNaN := (b0 &&& 0x7f) = 0x7f && (b1 &&& 0x80) = 0x80 &&
               !((b1 &&& 0x7f) = 0 && b2 = 0 && b3 = 0)
  !(isZero || isNaN)

/-- Truthiness of a big-endian IEEE-754 double: falsy exactly for plus or
minus zero and NaN. -/
def doubleTruthy (b : List Nat) : Bool :=
  let b0 := byteAt b 0; let b1 := byteAt b 1
  let rest0 := byteAt b 2 = 0 && byteAt b 3 = 0 && byteAt b 4 = 0 &&
               byteAt b 5 = 0 && byteAt b 6 = 0 && byteAt b 7 = 0
  let isZero := (b0 = 0 || b0 = 0x80) && b1 = 0 && rest0
  let isNaN := (b0 &&& 0x7f) = 0x7f && (b1 &&& 0xf0) = 0xf0 &&
               !((b1 &&& 0x0f) = 0 && rest0)
  !(isZero || isNaN)

/-- JS truthiness of a decoded value (used by `if (cls.super)`): `null`,
`undefined`, the empty string, zero and NaN numbers and `false` are falsy;
objects (Long, Buffer, arrays, wrappers, heap records) are always truthy. -/
def truthy : Value → Bool
  | .vNull => false
  | .vUndefined => false
  | .vEnd => true
  | .vPrim p =>
      match p with
      | .pByte i => i != 0
      | .pShort i => i != 0
      | .pInt i => i != 0
      | .pLong _ _ => true
      | .pChar _ => true
      | .pFloat b => floatTruthy b
      | .pDouble b => doubleTruthy b
      | .pBool b => b
  | .vStr s => !s.isEmpty
  | .vBlock _ => true
  | .vList _ => true
  | .vRef _ => true

/-- The process-wide registries `classDataParsers` and `classPostProcessors`,
looked up by class name and serialVersionUID (the JS key `name@uid`).
Registered entries are modelled as monadic functions over the parser state
returning a property map. -/
structure Registry where
  cdp : List Nat → List Nat → Option (DescRec → M PropMap)
  cpp : List Nat → List Nat → Option (DescRec → PropMap → List Value → M PropMap)

def emptyReg : Registry := ⟨fun _ _ => none, fun _ _ => none⟩

/-- ASCII bytes of the reserved property key "@". -/
def atKey : List Nat := [64]

/-- ASCII bytes of "class" (a non-writable property of decoded objects). -/
def classKey : List Nat := [99, 108, 97, 115, 115]

/-- ASCII bytes of "extends" (a non-writable property of decoded objects). -/
def extendsKey : List Nat := [101, 120, 116, 101, 110, 100, 115]

/-- The ordered tag-name table of src/parser.js. -/
def names : List String :=
  ["Null", "Reference", "ClassDesc", "Object", "String", "Array", "Class",
   "BlockData", "EndBlockData", "Reset", "BlockDataLong", "Exception",
   "LongString", "ProxyClassDesc", "Enum"]

/-- The allow-list of `Parser.classDesc`. -/
def classDescAllowed : List String :=
  ["ClassDesc", "ProxyClassDesc", "Null", "Reference"]

/-- Type codes having an entry in `primHandlers`:
B C D F I J S Z L and the open bracket. -/
def primTypeKnown (t : Nat) : Bool :=
  t = 66 || t = 67 || t = 68 || t = 70 || t = 73 || t = 74 ||
  t = 83 || t = 90 || t = 76 || t = 91

/-- `typeHandlers.BlockData`.  NOTE: unlike every other read, the payload is
taken with `buf.slice`, which clamps to the buffer end, and `this.pos += len`
is not bounds-checked, so a declared length passing the end of the buffer
yields a truncated slice and a cursor past the end instead of an error. -/
def blockDataH : M Value := do
  let len ← readUInt8
  let s ← getS
  let res := (s.buf.drop s.pos).take len
  setPos (s.pos + len)
  pure (.vBlock res)

/-- `typeHandlers.BlockDataLong`: same unchecked slice with a 32-bit length. -/
def blockDataLongH : M Value := do
  let len ← readUInt32
  let s ← getS
  let res := (s.buf.drop s.pos).take len
  setPos (s.pos + len)
  pure (.vBlock res)

/-- `typeHandlers.String`. -/
def stringH : M Value := do
  let sb ← utf
  newHandle (.vStr sb)

/-- `typeHandlers.LongString`. -/
def longStringH : M Value := do
  let sb ← utfLong
  newHandle (.vStr sb)

/-- `typeHandlers.Reference`: unguarded handle-table lookup of a signed
32-bit handle. -/
def referenceH : M Value := do
  let i ← readInt32
  let s ← getS
  pure (lookupHandle s i)

/-- Copy each entry of a class-data value onto the object
(`for (const name in fields) obj[name] = fields[name]`).  Assigning the
non-writable `class` or `extends` property throws in strict mode. -/
def copyProps (hObj : Nat) : PropMap → M Unit
  | [] => pure ()
  | (k, v) :: rest =>
      if k = classKey ∨ k = extendsKey then throwE .typeError
      else do
        modifyCell hObj (updObj fun o => { o with fieldsM := setAssoc o.fieldsM k v })
        copyProps hObj rest


/-- The recursive interface of the mutually recursive parser routines.  The
parser is defined by open recursion: each routine receives the functions one
fuel level below and the knot is tied by `parserRec`, so that one unit of
fuel is spent per nested call (the JS original recurses without bound). -/
structure PRec where
  contentR : Option (List String) → M Value
  dispatchR : Nat → M Value
  classDescR : M Value
  fieldsLoopR : Nat → Nat → M Unit
  fieldDescR : M FieldDesc
  annotationsR : M (List Value)
  objectR : M Value
  rcdR : Value → Nat → M Unit
  classdataR : Value → M PropMap
  valuesR : Value → M PropMap
  valsLoopR : List FieldDesc → PropMap → M PropMap
  primValueR : Nat → M Value
  arrayR : M Value
  arrElemsR : Nat → Nat → Nat → M Unit
  enumR : M Value

/-- `Parser.content`: read one tag byte, check the range and the optional
allow-list, then dispatch.  The range check `tc < 0 || tc > names.length`
admits offset 15 (tag byte 0x7f), whose missing table entry surfaces as the
JS string "undefined" in the subsequent checks. -/
def contentF (r : PRec) (allowed : Option (List String)) : M Value := do
  let b ← readUInt8
  let tc : Int := (b : Int) - 0x70
  if tc < 0 ∨ (names.length : Int) < tc then throwE (.unknownType tc)
  else
    let nm := (names.get? tc.toNat).getD "undefined"
    match allowed with
    | some lst =>
        if lst.contains nm then r.dispatchR tc.toNat
        else throwE (.notAllowed nm)
    | none => r.dispatchR tc.toNat

/-- The `typeHandlers` dispatch of `content`, including the `!handler` check
for names without a handler (`Reset`, `Exception`, `ProxyClassDesc`) and for
the out-of-table offset 15. -/
def dispatchF (r : PRec) (tc : Nat) : M Value :=
  match tc with
  | 0 => pure .vNull
  | 1 => referenceH
  | 2 => r.classDescR
  | 3 => r.objectR
  | 4 => stringH
  | 5 => r.arrayR
  | 6 => do
      let cd ← r.contentR (some classDescAllowed)
      newHandle cd
  | 7 => blockDataH
  | 8 => pure .vEnd
  | 9 => throwE (.noHandler "Reset")
  | 10 => blockDataLongH
  | 11 => throwE (.noHandler "Exception")
  | 12 => longStringH
  | 13 => throwE (.noHandler "ProxyClassDesc")
  | 14 => r.enumR
  | _ => throwE (.noHandler "undefined")

/-- `typeHandlers.ClassDesc`: the handle is assigned after the name and UID
are read and before the flag byte, field list, annotation block and super
descriptor; the record is updated property by property as the JS object is. -/
def classDescF (r : PRec) : M Value := do
  let nm ← utf
  let uid ← readHex 8
  let h ← allocCell (.desc { name := nm, serialVersionUID := uid })
  let fl ← readUInt8
  modifyCell h (updDesc fun d => { d with flags := some fl })
  let count ← readUInt16
  modifyCell h (updDesc fun d => { d with fields := some [] })
  r.fieldsLoopR h count
  let anns ← r.annotationsR
  modifyCell h (updDesc fun d => { d with annotations := some anns })
  let sup ← r.contentR (some classDescAllowed)
  modifyCell h (updDesc fun d => { d with superD := some sup })
  pure (.vRef h)

/-- The field-descriptor loop of `typeHandlers.ClassDesc`. -/
def fieldsLoopF (r : PRec) (h : Nat) (n : Nat) : M Unit :=
  match n with
  | 0 => pure ()
  | n + 1 => do
      let fd ← r.fieldDescR
      modifyCell h (updDesc fun d => { d with fields := some (d.fields.getD [] ++ [fd]) })
      r.fieldsLoopR h n

/-- `Parser.fieldDesc`: type-code byte, short UTF name, and for codes `[`
and `L` one content item as the class name. -/
def fieldDescG (r : PRec) : M FieldDesc := do
  let t ← readUInt8
  let nm ← utf
  if t = 91 ∨ t = 76 then do
    let cn ← r.contentR none
    pure { type := t, name := nm, className := some cn }
  else
    pure { type := t, name := nm }

/-- `Parser.annotations`: content items until the end-block sentinel (the
optional allow-list of the JS signature is never passed by the parser). -/
def annotationsF (r : PRec) : M (List Value) := do
  let a ← r.contentR none
  match a with
  | .vEnd => pure []
  | _ => do
      let rest ← r.annotationsR
      pure (a :: rest)

/-- `typeHandlers.Object`: the handle is assigned after the class descriptor
and before any class data is read. -/
def objectF (r : PRec) : M Value := do
  let cd ← r.contentR (some classDescAllowed)
  let h ← allocCell (.obj { classD := cd })
  r.rcdR cd h
  pure (.vRef h)

/-- `Parser.recursiveClassData`: superclass data first (root first), then
the class itself: its class-data value is stored under `extends[name]` and
its entries are copied onto the object. -/
def recursiveClassDataF (r : PRec) (clsVal : Value) (hObj : Nat) : M Unit := do
  let s₀ ← getS
  match derefDesc s₀ clsVal with
  | none => throwE .typeError
  | some d => do
      (match d.superD with
       | some sup =>
           if truthy sup then r.rcdR sup hObj else pure ()
       | none => pure ())
      let fv ← r.classdataR clsVal
      modifyCell hObj (updObj fun o =>
        { o with extendsM := setAssoc o.extendsM d.name fv })
      copyProps hObj fv

/-- `Parser.classdata`: dispatch on the low nibble of the class flags.
An absent flag byte (possible only for a descriptor still under
construction) aborts, as the JS `cls.flags.toString(16)` of the default
branch would. -/
def classdataF (reg : Registry) (r : PRec) (clsVal : Value) : M PropMap := do
  let s₀ ← getS
  match derefDesc s₀ clsVal with
  | none => throwE .typeError
  | some d =>
      match d.flags with
      | none => throwE .typeError
      | some fl =>
          match fl &&& 0x0f with
          | 2 => r.valuesR clsVal
          | 3 => do
              let res ← (match reg.cdp d.name d.serialVersionUID with
                         | some p => p d
                         | none => r.valuesR clsVal)
              let data ← r.annotationsR
              let res := setAssoc res atKey (.vList data)
              (match reg.cpp d.name d.serialVersionUID with
               | some q => q d res data
               | none => pure res)
          | 4 => throwE .version1External
          | 12 => do
              let data ← r.annotationsR
              pure [(atKey, .vList data)]
          | _ => throwE (.unknownFlags fl)

/-- `Parser.values`: default field values in declared field order. -/
def valuesF (r : PRec) (clsVal : Value) : M PropMap := do
  let s₀ ← getS
  match derefDesc s₀ clsVal with
  | none => throwE .typeError
  | some d =>
      match d.fields with
      | none => throwE .typeError
      | some fds => r.valsLoopR fds []

/-- The field loop of `Parser.values`: `vals[field.name] = handler()`. -/
def valsLoopF (r : PRec) (fds : List FieldDesc) (acc : PropMap) : M PropMap :=
  match fds with
  | [] => pure acc
  | fd :: rest => do
      let v ← r.primValueR fd.type
      r.valsLoopR rest (setAssoc acc fd.name v)

/-- The `primHandlers` table keyed by the type-code character, fused with
the lookup failure of `Parser.primHandler` for unknown codes. -/
def primValueF (r : PRec) (t : Nat) : M Value :=
  match t with
  | 66 => do let i ← readInt8; pure (.vPrim (.pByte i))
  | 67 => do let c ← readUInt16; pure (.vPrim (.pChar c))
  | 68 => do let b ← chunk 8; pure (.vPrim (.pDouble b))
  | 70 => do let b ← chunk 4; pure (.vPrim (.pFloat b))
  | 73 => do let i ← readInt32; pure (.vPrim (.pInt i))
  | 74 => do
      let hi ← readUInt32
      let lo ← readUInt32
      pure (.vPrim (.pLong hi lo))
  | 83 => do let i ← readInt16; pure (.vPrim (.pShort i))
  | 90 => do let i ← readInt8; pure (.vPrim (.pBool (i != 0)))
  | 76 => r.contentR none
  | 91 => r.contentR none
  | _ => throwE (.unknownPrimType t)

/-- `typeHandlers.Array`: handle assigned before the length and elements;
the element handler is chosen by the second character of the class name
(second byte here; array class names are ASCII); a negative length makes the
JS assignment `res.length = len` throw a RangeError. -/
def arrayF (r : PRec) : M Value := do
  let cd ← r.contentR (some classDescAllowed)
  let h ← allocCell (.arr { classD := cd })
  let len ← readInt32
  let s₀ ← getS
  match derefDesc s₀ cd with
  | none => throwE .typeError
  | some d =>
      let t := (d.name.get? 1).getD 256
      if ¬ primTypeKnown t then throwE (.unknownPrimType t)
      else if len < 0 then throwE .rangeError
      else do
        r.arrElemsR h t len.toNat
        pure (.vRef h)

/-- The element loop of `typeHandlers.Array`: `res[i] = handler()`. -/
def arrElemsF (r : PRec) (h : Nat) (t : Nat) (n : Nat) : M Unit :=
  match n with
  | 0 => pure ()
  | n + 1 => do
      let v ← r.primValueR t
      modifyCell h (updArr fun a => { a with elems := a.elems ++ [v] })
      r.arrElemsR h t n

/-- `typeHandlers.Enum`: a deferred handle slot is reserved (holding `null`)
after the class descriptor and before the constant is read, and filled with
the enum wrapper after the constant is read. -/
def enumF (r : PRec) : M Value := do
  let cd ← r.contentR (some classDescAllowed)
  let idx ← allocCell (.imm .vNull)
  let c ← r.contentR none
  fillCell idx (.enumc { constant := c, classD := cd })
  pure (.vRef idx)

/-- The fuel-zero interface: every routine fails with `outOfFuel`. -/
def pzero : PRec where
  contentR := fun _ => throwE .outOfFuel
  dispatchR := fun _ => throwE .outOfFuel
  classDescR := throwE .outOfFuel
  fieldsLoopR := fun _ _ => throwE .outOfFuel
  fieldDescR := throwE .outOfFuel
  annotationsR := throwE .outOfFuel
  objectR := throwE .outOfFuel
  rcdR := fun _ _ => throwE .outOfFuel
  classdataR := fun _ => throwE .outOfFuel
  valuesR := fun _ => throwE .outOfFuel
  valsLoopR := fun _ _ => throwE .outOfFuel
  primValueR := fun _ => throwE .outOfFuel
  arrayR := throwE .outOfFuel
  arrElemsR := fun _ _ _ => throwE .outOfFuel
  enumR := throwE .outOfFuel

/-- One fuel level of the parser on top of the level below. -/
def pstep (reg : Registry) (r : PRec) : PRec where
  contentR := contentF r
  dispatchR := dispatchF r
  classDescR := classDescF r
  fieldsLoopR := fieldsLoopF r
  fieldDescR := fieldDescG r
  annotationsR := annotationsF r
  objectR := objectF r
  rcdR := recursiveClassDataF r
  classdataR := classdataF reg r
  valuesR := valuesF r
  valsLoopR := valsLoopF r
  primValueR := primValueF r
  arrayR := arrayF r
  arrElemsR := arrElemsF r
  enumR := enumF r

/-- The fuelled parser: `parserRec reg fuel` provides every routine with
`fuel` nested calls available. -/
def parserRec (reg : Registry) : Nat → PRec
  | 0 => pzero
  | fuel + 1 => pstep reg (parserRec reg fuel)

def content (fuel : Nat) (reg : Registry) (allowed : Option (List String)) : M Value :=
  (parserRec reg fuel).contentR allowed

def dispatch (fuel : Nat) (reg : Registry) (tc : Nat) : M Value :=
  (parserRec reg fuel).dispatchR tc

def classDescH (fuel : Nat) (reg : Registry) : M Value :=
  (parserRec reg fuel).classDescR

def fieldsLoop (fuel : Nat) (reg : Registry) (h : Nat) (n : Nat) : M Unit :=
  (parserRec reg fuel).fieldsLoopR h n

def fieldDescF (fuel : Nat) (reg : Registry) : M FieldDesc :=
  (parserRec reg fuel).fieldDescR

def annotations (fuel : Nat) (reg : Registry) : M (List Value) :=
  (parserRec reg fuel).annotationsR

def objectH (fuel : Nat) (reg : Registry) : M Value :=
  (parserRec reg fuel).objectR

def recursiveClassData (fuel : Nat) (reg : Registry) (clsVal : Value) (hObj : Nat) : M Unit :=
  (parserRec reg fuel).rcdR clsVal hObj

def classdata (fuel : Nat) (reg : Registry) (clsVal : Value) : M PropMap :=
  (parserRec reg fuel).classdataR clsVal

def values (fuel : Nat) (reg : Registry) (clsVal : Value) : M PropMap :=
  (parserRec reg fuel).valuesR clsVal

def valsLoop (fuel : Nat) (reg : Registry) (fds : List FieldDesc) (acc : PropMap) : M PropMap :=
  (parserRec reg fuel).valsLoopR fds acc

def primValue (fuel : Nat) (reg : Registry) (t : Nat) : M Value :=
  (parserRec reg fuel).primValueR t

def arrayH (fuel : Nat) (reg : Registry) : M Value :=
  (parserRec reg fuel).arrayR

def arrElems (fuel : Nat) (reg : Registry) (h : Nat) (t : Nat) (n : Nat) : M Unit :=
  (parserRec reg fuel).arrElemsR h t n

def enumH (fuel : Nat) (reg : Registry) : M Value :=
  (parserRec reg fuel).enumR

/-- The top-level loop of the `Parser` constructor:
`while (this.pos < this.buf.length) this.contents.push(this.content())`. -/
def parseLoop (fuel : Nat) (reg : Registry) (acc : List Value) : M (List Value) :=
  match fuel with
  | 0 => throwE .outOfFuel
  | fuel + 1 => fun s =>
      if s.pos < s.buf.length then
        (do let v ← content fuel reg none
            parseLoop fuel reg (acc ++ [v])) s
      else .ok (acc, s)

def initState (buf : List Nat) : PState :=
  { buf := buf, pos := 0, nextHandle := HBASE, handles := [] }

/-- The `Parser` constructor: magic, version, then top-level content items
until the cursor reaches the end of the buffer. -/
def runParser (fuel : Nat) (reg : Registry) (buf : List Nat) :
    Except Err (List Value × PState) :=
  (do magic
      version
      parseLoop fuel reg []) (initState buf)

/-- `Parser.registerClassDataParser`: `assert.strictEqual` demands the
serialVersionUID string to have length 16 (the message says "16 hex digits"
but only the length is checked), then stores the entry under the key
`className@serialVersionUID`.  The stored entry type is abstract. -/
def registerClassDataParser {pt : Type} (store : List (String × pt))
    (className serialVersionUID : String) (p : pt) :
    Except Err (List (String × pt)) :=
  if serialVersionUID.length = 16 then
    .ok (setAssoc store (className ++ "@" ++ serialVersionUID) p)
  else .error .assertFailed

/-- `Parser.registerPostProcessor`: identical length check and storage shape
as `registerClassDataParser`, on the post-processor registry. -/
def registerPostProcessor {pt : Type} (store : List (String × pt))
    (className serialVersionUID : String) (p : pt) :
    Except Err (List (String × pt)) :=
  if serialVersionUID.length = 16 then
    .ok (setAssoc store (className ++ "@" ++ serialVersionUID) p)
  else .error .assertFailed


/-- Handle-table invariant: `nextHandle` equals `0x7e0000` plus the number
of slots assigned so far, so handles are assigned densely in creation order
starting at `0x7e0000`. -/
def stateOk (s : PState) : Prop := s.nextHandle = HBASE + s.handles.length

/-- Evolution of the state across a complete parser operation: the buffer is
untouched, slots are only appended, and every previously existing slot is
unchanged. -/
def HeapExt (s t : PState) : Prop :=
  t.buf = s.buf ∧ s.handles.length ≤ t.handles.length ∧
  ∀ i, i < s.handles.length → t.handles.get? i = s.handles.get? i

/-- Evolution that may additionally rewrite the single slot `j` (used for
the loops that update the record a surrounding frame just created). -/
def HeapExtX (j : Nat) (s t : PState) : Prop :=
  t.buf = s.buf ∧ s.handles.length ≤ t.handles.length ∧
  ∀ i, i < s.handles.length → i ≠ j → t.handles.get? i = s.handles.get? i

theorem heapExt_refl (s : PState) : HeapExt s s := ⟨rfl, le_refl _, fun _ _ => rfl⟩

theorem heapExt_trans {s t u : PState} (h₁ : HeapExt s t) (h₂ : HeapExt t u) :
    HeapExt s u := by
  obtain ⟨b₁, l₁, p₁⟩ := h₁
  obtain ⟨b₂, l₂, p₂⟩ := h₂
  exact ⟨b₂.trans b₁, l₁.trans l₂, fun i hi => (p₂ i (lt_of_lt_of_le hi l₁)).trans (p₁ i hi)⟩

theorem heapExt_toX {s t : PState} (j : Nat) (h : HeapExt s t) : HeapExtX j s t :=
  ⟨h.1, h.2.1, fun i hi _ => h.2.2 i hi⟩

theorem heapExtX_trans {j : Nat} {s t u : PState}
    (h₁ : HeapExtX j s t) (h₂ : HeapExtX j t u) : HeapExtX j s u := by
  obtain ⟨b₁, l₁, p₁⟩ := h₁
  obtain ⟨b₂, l₂, p₂⟩ := h₂
  exact ⟨b₂.trans b₁, l₁.trans l₂,
    fun i hi hij => (p₂ i (lt_of_lt_of_le hi l₁) hij).trans (p₁ i hi hij)⟩

/-- A fresh-slot exception is no exception: if slot `j` did not exist at the
start, an `HeapExtX j` evolution after a plain one is plain. -/
theorem heapExt_of_X {j : Nat} {s t u : PState} (h₁ : HeapExt s t)
    (hj : s.handles.length ≤ j) (h₂ : HeapExtX j t u) : HeapExt s u := by
  obtain ⟨b₁, l₁, p₁⟩ := h₁
  obtain ⟨b₂, l₂, p₂⟩ := h₂
  refine ⟨b₂.trans b₁, l₁.trans l₂, fun i hi => ?_⟩
  have hij : i ≠ j := fun he => absurd (he ▸ hi) (not_lt.mpr hj)
  exact (p₂ i (lt_of_lt_of_le hi l₁) hij).trans (p₁ i hi)

/-- Preservation: a state transformer that, on success from a well-formed
state, yields a well-formed state and a plain heap extension. -/
def Pres {α : Type} (m : M α) : Prop :=
  ∀ s a t, stateOk s → m s = .ok (a, t) → stateOk t ∧ HeapExt s t

/-- Preservation up to rewriting slot `j`. -/
def PresX {α : Type} (j : Nat) (m : M α) : Prop :=
  ∀ s a t, stateOk s → m s = .ok (a, t) → stateOk t ∧ HeapExtX j s t

theorem pres_pure {α : Type} (a : α) : Pres (pure a : M α) := by
  intro s b t hok hrun
  cases hrun
  exact ⟨hok, heapExt_refl s⟩

theorem pres_throw {α : Type} (e : Err) : Pres (throwE e : M α) := by
  intro s a t _ hrun
  cases hrun

theorem pres_toX {α : Type} {m : M α} (j : Nat) (h : Pres m) : PresX j m := by
  intro s a t hok hrun
  obtain ⟨h₁, h₂⟩ := h s a t hok hrun
  exact ⟨h₁, heapExt_toX j h₂⟩

theorem pres_bind {α β : Type} {m : M α} {f : α → M β}
    (hm : Pres m) (hf : ∀ a, Pres (f a)) : Pres (m >>= f) := by
  intro s b t hok hrun
  rw [bind_apply] at hrun
  cases hm' : m s with
  | error e => rw [hm'] at hrun; cases hrun
  | ok p =>
      obtain ⟨a, s₁⟩ := p
      rw [hm'] at hrun
      obtain ⟨h₁, h₂⟩ := hm s a s₁ hok hm'
      obtain ⟨h₃, h₄⟩ := hf a s₁ b t h₁ hrun
      exact ⟨h₃, heapExt_trans h₂ h₄⟩

theorem presX_bind {α β : Type} {j : Nat} {m : M α} {f : α → M β}
    (hm : PresX j m) (hf : ∀ a, PresX j (f a)) : PresX j (m >>= f) := by
  intro s b t hok hrun
  rw [bind_apply] at hrun
  cases hm' : m s with
  | error e => rw [hm'] at hrun; cases hrun
  | ok p =>
      obtain ⟨a, s₁⟩ := p
      rw [hm'] at hrun
      obtain ⟨h₁, h₂⟩ := hm s a s₁ hok hm'
      obtain ⟨h₃, h₄⟩ := hf a s₁ b t h₁ hrun
      exact ⟨h₃, heapExtX_trans h₂ h₄⟩

theorem pres_getS : Pres getS := by
  intro s a t hok hrun
  cases hrun
  exact ⟨hok, heapExt_refl s⟩

theorem heapExt_pos {s : PState} {p : Nat} : HeapExt s { s with pos := p } :=
  ⟨rfl, le_refl _, fun _ _ => rfl⟩

theorem pres_setPos (p : Nat) : Pres (setPos p) := by
  intro s a t hok hrun
  cases hrun
  exact ⟨hok, heapExt_pos⟩

theorem pres_step (len : Nat) : Pres (step len) := by
  intro s a t hok hrun
  unfold step at hrun
  split at hrun
  · cases hrun
  · cases hrun
    exact ⟨hok, heapExt_pos⟩

theorem pres_chunk (len : Nat) : Pres (chunk len) :=
  pres_bind (pres_step len) fun _ => pres_bind pres_getS fun _ => pres_pure _

theorem pres_readUInt8 : Pres readUInt8 :=
  pres_bind (pres_step 1) fun _ => pres_bind pres_getS fun _ => pres_pure _

theorem pres_readInt8 : Pres readInt8 :=
  pres_bind pres_readUInt8 fun _ => pres_pure _

theorem pres_readUInt16 : Pres readUInt16 :=
  pres_bind (pres_step 2) fun _ => pres_bind pres_getS fun _ => pres_pure _

theorem pres_readInt16 : Pres readInt16 :=
  pres_bind pres_readUInt16 fun _ => pres_pure _

theorem pres_readUInt32 : Pres readUInt32 :=
  pres_bind (pres_step 4) fun _ => pres_bind pres_getS fun _ => pres_pure _

theorem pres_readInt32 : Pres readInt32 :=
  pres_bind pres_readUInt32 fun _ => pres_pure _

theorem pres_readHex (len : Nat) : Pres (readHex len) := pres_chunk len

theorem pres_utf : Pres utf :=
  pres_bind pres_readUInt16 fun n => pres_chunk n

theorem pres_utfLong : Pres utfLong := by
  refine pres_bind pres_readUInt32 fun hi => ?_
  split
  · exact pres_throw _
  · exact pres_bind pres_readUInt32 fun n => pres_chunk n

theorem heapExt_append {s : PState} {c : Cell} {n : Nat} :
    HeapExt s { s with handles := s.handles ++ [c], nextHandle := n } := by
  refine ⟨rfl, by simp, fun i hi => ?_⟩
  simp only
  exact List.get?_append hi

theorem pres_newHandle (v : Value) : Pres (newHandle v) := by
  intro s a t hok hrun
  cases hrun
  constructor
  · simp [stateOk] at hok ⊢
    omega
  · exact heapExt_append

theorem pres_allocCell (c : Cell) : Pres (allocCell c) := by
  intro s a t hok hrun
  cases hrun
  constructor
  · simp [stateOk] at hok ⊢
    omega
  · exact heapExt_append

theorem listModify_length (f : Cell → Cell) :
    ∀ (i : Nat) (l : List Cell), (listModify f i l).length = l.length := by
  intro i l
  induction l generalizing i with
  | nil => simp [listModify]
  | cons c rest ih =>
      cases i with
      | zero => simp [listModify]
      | succ j => simp [listModify, ih j]

theorem listModify_get?_ne (f : Cell → Cell) :
    ∀ (i : Nat) (l : List Cell) (k : Nat), k ≠ i →
      (listModify f i l).get? k = l.get? k := by
  intro i l
  induction l generalizing i with
  | nil => intro k _; simp [listModify]
  | cons c rest ih =>
      intro k hk
      cases i with
      | zero =>
          cases k with
          | zero => exact absurd rfl hk
          | succ k2 => simp [listModify]
      | succ j =>
          cases k with
          | zero => simp [listModify]
          | succ k2 =>
              simp only [listModify, List.get?_cons_succ]
              exact ih j k2 (fun he => hk (by omega))

theorem presX_modifyCell (h : Nat) (f : Cell → Cell) :
    PresX (h - HBASE) (modifyCell h f) := by
  unfold modifyCell PresX
  generalize h - HBASE = j
  intro s a t hok hrun
  cases hrun
  constructor
  · simp only [stateOk] at hok ⊢
    simp [listModify_length, hok]
  · refine ⟨rfl, ?_, ?_⟩
    · simp [listModify_length]
    · intro i hi hij
      exact listModify_get?_ne f j s.handles i hij

theorem presX_fillCell (h : Nat) (c : Cell) :
    PresX (h - HBASE) (fillCell h c) := by
  intro s a t hok hrun
  cases hrun
  constructor
  · simp only [stateOk] at hok ⊢
    simp [hok]
  · exact ⟨rfl, by simp, fun i hi hij =>
      List.get?_set_ne _ _ (fun he => hij he.symm)⟩

/-- Binding a fresh allocation against a continuation that may rewrite the
fresh slot is a plain preservation: the rewritten slot did not exist before. -/
theorem pres_allocCell_bind {α : Type} {c : Cell} {f : Nat → M α}
    (hf : ∀ h, PresX (h - HBASE) (f h)) : Pres (allocCell c >>= f) := by
  intro s a t hok hrun
  rw [bind_apply] at hrun
  have hrun' : f s.nextHandle { s with handles := s.handles ++ [c], nextHandle := s.nextHandle + 1 } = .ok (a, t) := hrun
  have hok₁ : stateOk { s with handles := s.handles ++ [c], nextHandle := s.nextHandle + 1 } := by
    simp only [stateOk] at hok ⊢
    simp only [List.length_append, List.length_cons, List.length_nil]
    omega
  obtain ⟨h₁, h₂⟩ := hf s.nextHandle _ a t hok₁ hrun'
  refine ⟨h₁, heapExt_of_X (heapExt_append (c := c) (n := s.nextHandle + 1)) ?_ h₂⟩
  simp only [stateOk] at hok
  omega

theorem pres_blockDataH : Pres blockDataH :=
  pres_bind pres_readUInt8 fun _ => pres_bind pres_getS fun s =>
    pres_bind (pres_setPos _) fun _ => pres_pure _

theorem pres_blockDataLongH : Pres blockDataLongH :=
  pres_bind pres_readUInt32 fun _ => pres_bind pres_getS fun s =>
    pres_bind (pres_setPos _) fun _ => pres_pure _

theorem pres_stringH : Pres stringH :=
  pres_bind pres_utf fun sb => pres_newHandle _

theorem pres_longStringH : Pres longStringH :=
  pres_bind pres_utfLong fun sb => pres_newHandle _

theorem pres_referenceH : Pres referenceH :=
  pres_bind pres_readInt32 fun _ => pres_bind pres_getS fun _ => pres_pure _

theorem presX_copyProps (hObj : Nat) (m : PropMap) :
    PresX (hObj - HBASE) (copyProps hObj m) := by
  induction m with
  | nil => exact pres_toX _ (pres_pure _)
  | cons kv rest ih =>
      obtain ⟨k, v⟩ := kv
      show PresX (hObj - HBASE) (copyProps hObj ((k, v) :: rest))
      unfold copyProps
      split
      · exact pres_toX _ (pres_throw _)
      · exact presX_bind (presX_modifyCell _ _) fun _ => ih

/-- Well-behaved registry: every registered entry preserves the handle table
like the built-in readers do. -/
def RegPres (reg : Registry) : Prop :=
  (∀ nm uid p, reg.cdp nm uid = some p → ∀ d, Pres (p d)) ∧
  (∀ nm uid q, reg.cpp nm uid = some q → ∀ d r a, Pres (q d r a))

theorem regPres_empty : RegPres emptyReg := by
  constructor
  · intro nm uid p hp
    cases hp
  · intro nm uid q hq
    cases hq



theorem content_zero (reg : Registry) (allowed : Option (List String)) :
    content 0 reg allowed = throwE .outOfFuel := rfl

theorem content_succ (m : Nat) (reg : Registry) (allowed : Option (List String)) :
    content (m + 1) reg allowed = contentF (parserRec reg m) allowed := rfl

theorem dispatch_succ (m : Nat) (reg : Registry) (tc : Nat) :
    dispatch (m + 1) reg tc = dispatchF (parserRec reg m) tc := rfl

theorem classDescH_succ (m : Nat) (reg : Registry) :
    classDescH (m + 1) reg = classDescF (parserRec reg m) := rfl

theorem fieldsLoop_succ (m : Nat) (reg : Registry) (h n : Nat) :
    fieldsLoop (m + 1) reg h n = fieldsLoopF (parserRec reg m) h n := rfl

theorem fieldDescF_succ (m : Nat) (reg : Registry) :
    fieldDescF (m + 1) reg = fieldDescG (parserRec reg m) := rfl

theorem annotations_succ (m : Nat) (reg : Registry) :
    annotations (m + 1) reg = annotationsF (parserRec reg m) := rfl

theorem objectH_succ (m : Nat) (reg : Registry) :
    objectH (m + 1) reg = objectF (parserRec reg m) := rfl

theorem recursiveClassData_succ (m : Nat) (reg : Registry) (clsVal : Value) (hObj : Nat) :
    recursiveClassData (m + 1) reg clsVal hObj =
      recursiveClassDataF (parserRec reg m) clsVal hObj := rfl

theorem classdata_succ (m : Nat) (reg : Registry) (clsVal : Value) :
    classdata (m + 1) reg clsVal = classdataF reg (parserRec reg m) clsVal := rfl

theorem values_succ (m : Nat) (reg : Registry) (clsVal : Value) :
    values (m + 1) reg clsVal = valuesF (parserRec reg m) clsVal := rfl

theorem valsLoop_succ (m : Nat) (reg : Registry) (fds : List FieldDesc) (acc : PropMap) :
    valsLoop (m + 1) reg fds acc = valsLoopF (parserRec reg m) fds acc := rfl

theorem primValue_succ (m : Nat) (reg : Registry) (t : Nat) :
    primValue (m + 1) reg t = primValueF (parserRec reg m) t := rfl

theorem arrayH_succ (m : Nat) (reg : Registry) :
    arrayH (m + 1) reg = arrayF (parserRec reg m) := rfl

theorem arrElems_succ (m : Nat) (reg : Registry) (h t n : Nat) :
    arrElems (m + 1) reg h t n = arrElemsF (parserRec reg m) h t n := rfl

theorem enumH_succ (m : Nat) (reg : Registry) :
    enumH (m + 1) reg = enumF (parserRec reg m) := rfl

/-- Master preservation: every parser routine, run on a well-formed state
with a well-behaved registry, preserves the handle-table invariant, never
touches the buffer, and never changes a previously assigned slot.  The loop
routines that populate the record their caller just created may rewrite
exactly that slot, which is fresh for every surrounding frame. -/
theorem presAll (reg : Registry) (hreg : RegPres reg) : ∀ fuel,
    (∀ allowed, Pres (content fuel reg allowed)) ∧
    (∀ tc, Pres (dispatch fuel reg tc)) ∧
    Pres (classDescH fuel reg) ∧
    (∀ h n, PresX (h - HBASE) (fieldsLoop fuel reg h n)) ∧
    Pres (fieldDescF fuel reg) ∧
    Pres (annotations fuel reg) ∧
    Pres (objectH fuel reg) ∧
    (∀ clsVal hObj, PresX (hObj - HBASE) (recursiveClassData fuel reg clsVal hObj)) ∧
    (∀ clsVal, Pres (classdata fuel reg clsVal)) ∧
    (∀ clsVal, Pres (values fuel reg clsVal)) ∧
    (∀ fds acc, Pres (valsLoop fuel reg fds acc)) ∧
    (∀ t, Pres (primValue fuel reg t)) ∧
    Pres (arrayH fuel reg) ∧
    (∀ h t n, PresX (h - HBASE) (arrElems fuel reg h t n)) ∧
    Pres (enumH fuel reg) := by
  intro fuel
  induction fuel with
  | zero =>
      refine ⟨fun allowed => ?_, fun tc => ?_, ?_, fun h n => ?_, ?_, ?_, ?_,
              fun clsVal hObj => ?_, fun clsVal => ?_, fun clsVal => ?_,
              fun fds acc => ?_, fun t => ?_, ?_, fun h t n => ?_, ?_⟩
      · exact pres_throw _
      · exact pres_throw _
      · exact pres_throw _
      · exact pres_toX _ (pres_throw _)
      · exact pres_throw _
      · exact pres_throw _
      · exact pres_throw _
      · exact pres_toX _ (pres_throw _)
      · exact pres_throw _
      · exact pres_throw _
      · exact pres_throw _
      · exact pres_throw _
      · exact pres_throw _
      · exact pres_toX _ (pres_throw _)
      · exact pres_throw _
  | succ m ih =>
      obtain ⟨ihContent, ihDispatch, ihCDH, ihFL, ihFD, ihAnn, ihObj, ihRCD,
              ihCD, ihVal, ihVL, ihPV, ihArr, ihAE, ihEnum⟩ := ih
      refine ⟨fun allowed => ?_, fun tc => ?_, ?_, fun h n => ?_, ?_, ?_, ?_,
              fun clsVal hObj => ?_, fun clsVal => ?_, fun clsVal => ?_,
              fun fds acc => ?_, fun t => ?_, ?_, fun h t n => ?_, ?_⟩
      · -- content
        rw [content_succ]
        simp only [contentF]
        refine pres_bind pres_readUInt8 fun b => ?_
        split
        · exact pres_throw _
        · split
          · split
            · exact ihDispatch _
            · exact pres_throw _
          · exact ihDispatch _
      · -- dispatch
        rw [dispatch_succ]
        simp only [dispatchF]
        split
        · exact pres_pure _
        · exact pres_referenceH
        · exact ihCDH
        · exact ihObj
        · exact pres_stringH
        · exact ihArr
        · exact pres_bind (ihContent _) fun cd => pres_newHandle _
        · exact pres_blockDataH
        · exact pres_pure _
        · exact pres_throw _
        · exact pres_blockDataLongH
        · exact pres_throw _
        · exact pres_longStringH
        · exact pres_throw _
        · exact ihEnum
        · exact pres_throw _
      · -- classDescH
        rw [classDescH_succ]
        simp only [classDescF]
        refine pres_bind pres_utf fun nm => ?_
        refine pres_bind (pres_readHex 8) fun uid => ?_
        refine pres_allocCell_bind fun h => ?_
        refine presX_bind (pres_toX _ pres_readUInt8) fun fl => ?_
        refine presX_bind (presX_modifyCell _ _) fun _ => ?_
        refine presX_bind (pres_toX _ pres_readUInt16) fun count => ?_
        refine presX_bind (presX_modifyCell _ _) fun _ => ?_
        refine presX_bind (ihFL h count) fun _ => ?_
        refine presX_bind (pres_toX _ ihAnn) fun anns => ?_
        refine presX_bind (presX_modifyCell _ _) fun _ => ?_
        refine presX_bind (pres_toX _ (ihContent _)) fun sup => ?_
        exact presX_bind (presX_modifyCell _ _) fun _ => pres_toX _ (pres_pure _)
      · -- fieldsLoop
        rw [fieldsLoop_succ]
        simp only [fieldsLoopF]
        cases n with
        | zero => exact pres_toX _ (pres_pure _)
        | succ k =>
            refine presX_bind (pres_toX _ ihFD) fun fd => ?_
            exact presX_bind (presX_modifyCell _ _) fun _ => ihFL h k
      · -- fieldDescF
        rw [fieldDescF_succ]
        simp only [fieldDescG]
        refine pres_bind pres_readUInt8 fun t => ?_
        refine pres_bind pres_utf fun nm => ?_
        split
        · exact pres_bind (ihContent _) fun cn => pres_pure _
        · exact pres_pure _
      · -- annotations
        rw [annotations_succ]
        simp only [annotationsF]
        refine pres_bind (ihContent _) fun a => ?_
        split
        · exact pres_pure _
        · exact pres_bind ihAnn fun rest => pres_pure _
      · -- objectH
        rw [objectH_succ]
        simp only [objectF]
        refine pres_bind (ihContent _) fun cd => ?_
        refine pres_allocCell_bind fun h => ?_
        exact presX_bind (ihRCD cd h) fun _ => pres_toX _ (pres_pure _)
      · -- recursiveClassData
        rw [recursiveClassData_succ]
        simp only [recursiveClassDataF]
        refine presX_bind (pres_toX _ pres_getS) fun s₀ => ?_
        split
        · exact pres_toX _ (pres_throw _)
        · refine presX_bind ?_ fun _ => ?_
          · split
            · split
              · exact ihRCD _ hObj
              · exact pres_toX _ (pres_pure _)
            · exact pres_toX _ (pres_pure _)
          · refine presX_bind (pres_toX _ (ihCD clsVal)) fun fv => ?_
            exact presX_bind (presX_modifyCell _ _) fun _ => presX_copyProps hObj fv
      · -- classdata
        rw [classdata_succ]
        simp only [classdataF]
        refine pres_bind pres_getS fun s₀ => ?_
        split
        · exact pres_throw _
        · split
          · exact pres_throw _
          · split
            · exact ihVal _
            · refine pres_bind ?_ fun res => ?_
              · split
                · rename_i p hp
                  exact hreg.1 _ _ p hp _
                · exact ihVal _
              · refine pres_bind ihAnn fun data => ?_
                split
                · rename_i q hq
                  exact hreg.2 _ _ q hq _ _ _
                · exact pres_pure _
            · exact pres_throw _
            · exact pres_bind ihAnn fun data => pres_pure _
            · exact pres_throw _
      · -- values
        rw [values_succ]
        simp only [valuesF]
        refine pres_bind pres_getS fun s₀ => ?_
        split
        · exact pres_throw _
        · split
          · exact pres_throw _
          · exact ihVL _ _
      · -- valsLoop
        rw [valsLoop_succ]
        simp only [valsLoopF]
        cases fds with
        | nil => exact pres_pure _
        | cons fd rest => exact pres_bind (ihPV _) fun v => ihVL rest _
      · -- primValue
        rw [primValue_succ]
        simp only [primValueF]
        split
        · exact pres_bind pres_readInt8 fun i => pres_pure _
        · exact pres_bind pres_readUInt16 fun c => pres_pure _
        · exact pres_bind (pres_chunk 8) fun b => pres_pure _
        · exact pres_bind (pres_chunk 4) fun b => pres_pure _
        · exact pres_bind pres_readInt32 fun i => pres_pure _
        · exact pres_bind pres_readUInt32 fun hi =>
            pres_bind pres_readUInt32 fun lo => pres_pure _
        · exact pres_bind pres_readInt16 fun i => pres_pure _
        · exact pres_bind pres_readInt8 fun i => pres_pure _
        · exact ihContent _
        · exact ihContent _
        · exact pres_throw _
      · -- arrayH
        rw [arrayH_succ]
        simp only [arrayF]
        refine pres_bind (ihContent _) fun cd => ?_
        refine pres_allocCell_bind fun h => ?_
        refine presX_bind (pres_toX _ pres_readInt32) fun len => ?_
        refine presX_bind (pres_toX _ pres_getS) fun s₀ => ?_
        split
        · exact pres_toX _ (pres_throw _)
        · split
          · exact pres_toX _ (pres_throw _)
          · split
            · exact pres_toX _ (pres_throw _)
            · exact presX_bind (ihAE h _ _) fun _ => pres_toX _ (pres_pure _)
      · -- arrElems
        rw [arrElems_succ]
        simp only [arrElemsF]
        cases n with
        | zero => exact pres_toX _ (pres_pure _)
        | succ k =>
            refine presX_bind (pres_toX _ (ihPV t)) fun v => ?_
            exact presX_bind (presX_modifyCell _ _) fun _ => ihAE h t k
      · -- enumH
        rw [enumH_succ]
        simp only [enumF]
        refine pres_bind (ihContent _) fun cd => ?_
        refine pres_allocCell_bind fun idx => ?_
        refine presX_bind (pres_toX _ (ihContent _)) fun c => ?_
        exact presX_bind (presX_fillCell _ _) fun _ => pres_toX _ (pres_pure _)


theorem step_ok (len : Nat) (s : PState) (h : s.pos + len ≤ s.buf.length) :
    step len s = .ok (s.pos, { s with pos := s.pos + len }) := by
  unfold step
  rw [if_neg (by omega)]

theorem step_err (len : Nat) (s : PState) (h : s.buf.length < s.pos + len) :
    step len s = .error (.prematureEnd (s.pos + len)) := by
  unfold step
  rw [if_pos h]

theorem chunk_ok (len : Nat) (s : PState) (h : s.pos + len ≤ s.buf.length) :
    chunk len s = .ok ((s.buf.drop s.pos).take len, { s with pos := s.pos + len }) := by
  unfold chunk
  rw [bind_apply, step_ok len s h]
  rfl

theorem chunk_err (len : Nat) (s : PState) (h : s.buf.length < s.pos + len) :
    chunk len s = .error (.prematureEnd (s.pos + len)) := by
  unfold chunk
  rw [bind_apply, step_err len s h]

theorem readUInt8_ok (s : PState) (h : s.pos + 1 ≤ s.buf.length) :
    readUInt8 s = .ok (byteAt s.buf s.pos, { s with pos := s.pos + 1 }) := by
  unfold readUInt8
  rw [bind_apply, step_ok 1 s h]
  rfl

theorem readUInt16_ok (s : PState) (h : s.pos + 2 ≤ s.buf.length) :
    readUInt16 s = .ok (256 * byteAt s.buf s.pos + byteAt s.buf (s.pos + 1),
      { s with pos := s.pos + 2 }) := by
  unfold readUInt16
  rw [bind_apply, step_ok 2 s h]
  rfl

theorem readUInt32_ok (s : PState) (h : s.pos + 4 ≤ s.buf.length) :
    readUInt32 s = .ok (16777216 * byteAt s.buf s.pos + 65536 * byteAt s.buf (s.pos + 1) +
        256 * byteAt s.buf (s.pos + 2) + byteAt s.buf (s.pos + 3),
      { s with pos := s.pos + 4 }) := by
  unfold readUInt32
  rw [bind_apply, step_ok 4 s h]
  rfl


/-- The byte stream: magic `0xaced`, version 5, then a BlockData item (tag
`0x77`) declaring 5 payload bytes where none remain. -/
def c1buf : List Nat := [0xAC, 0xED, 0x00, 0x05, 0x77, 0x05]

/-- Evaluation of the parser on `c1buf`: the parse succeeds, yielding the
truncated (empty) block and a final cursor of 11 past the 6-byte buffer. -/
theorem runParser_c1buf : runParser 20 emptyReg c1buf =
    .ok ([.vBlock []], { buf := c1buf, pos := 11, nextHandle := HBASE, handles := [] }) := by
  decide

/-- C1, counterexample.  `c1buf` ends in a BlockData item whose declared
length 5 extends past the end of the 6-byte buffer (the payload would need
bytes 6..10).  The claim says every such parse fails with the "premature end
of input" error; instead the parse succeeds, returning the slice truncated
to nothing. -/
theorem C1_counterexample :
    c1buf.length = 6 ∧ byteAt c1buf 4 = 0x77 ∧ byteAt c1buf 5 = 5 ∧
    runParser 20 emptyReg c1buf =
      .ok ([.vBlock []], { buf := c1buf, pos := 11, nextHandle := HBASE, handles := [] }) :=
  ⟨by decide, by decide, by decide, runParser_c1buf⟩

/-- C1, amended: a BlockData or BlockDataLong item whose declared length
passes the end of the buffer does not fail; the handler returns the slice
truncated at the buffer end and advances the cursor past the end (every
other read is bounds-checked by `step` and fails with "premature end of
input"). -/
theorem C1_blockdata_unchecked (s : PState) (len : Nat) :
    (byteAt s.buf s.pos = len → s.pos + 1 ≤ s.buf.length →
      s.buf.length < s.pos + 1 + len →
      blockDataH s =
        .ok (.vBlock (s.buf.drop (s.pos + 1)), { s with pos := s.pos + 1 + len })) ∧
    (readUInt32 s = .ok (len, { s with pos := s.pos + 4 }) →
      s.buf.length < s.pos + 4 + len →
      blockDataLongH s =
        .ok (.vBlock (s.buf.drop (s.pos + 4)), { s with pos := s.pos + 4 + len })) := by
  constructor
  · intro hb hr hover
    unfold blockDataH
    rw [bind_apply, readUInt8_ok s hr, hb]
    have htake : ((s.buf.drop (s.pos + 1)).take len) = s.buf.drop (s.pos + 1) := by
      apply List.take_of_length_le
      rw [List.length_drop]
      omega
    simp only [bind_apply, getS, setPos, pure_apply, htake]
  · intro hr hover
    unfold blockDataLongH
    rw [bind_apply, hr]
    have htake : ((s.buf.drop (s.pos + 4)).take len) = s.buf.drop (s.pos + 4) := by
      apply List.take_of_length_le
      rw [List.length_drop]
      omega
    simp only [bind_apply, getS, setPos, pure_apply, htake]

/-- C1, witness: the amended theorem applied to a two-byte buffer whose
BlockData length byte declares 2 bytes with only 1 available, and to a
five-byte buffer whose BlockDataLong length word declares 2 bytes with only
1 available. -/
theorem C1_blockdata_unchecked_witness :
    blockDataH { buf := [2, 0xAA], pos := 0, nextHandle := HBASE, handles := [] } =
      .ok (.vBlock [0xAA], { buf := [2, 0xAA], pos := 3, nextHandle := HBASE, handles := [] }) ∧
    blockDataLongH { buf := [0, 0, 0, 2, 0xAA], pos := 0, nextHandle := HBASE, handles := [] } =
      .ok (.vBlock [0xAA],
        { buf := [0, 0, 0, 2, 0xAA], pos := 6, nextHandle := HBASE, handles := [] }) := by
  constructor
  · exact (C1_blockdata_unchecked
      { buf := [2, 0xAA], pos := 0, nextHandle := HBASE, handles := [] } 2).1
      (by decide) (by decide) (by decide)
  · exact (C1_blockdata_unchecked
      { buf := [0, 0, 0, 2, 0xAA], pos := 0, nextHandle := HBASE, handles := [] } 2).2
      (by decide) (by decide)


theorem pres_magic : Pres magic := by
  refine pres_bind pres_readUInt16 fun m => ?_
  split
  · exact pres_throw _
  · exact pres_pure _

theorem pres_version : Pres version := by
  refine pres_bind pres_readUInt16 fun v => ?_
  split
  · exact pres_throw _
  · exact pres_pure _

/-- The top-level loop can only return once the cursor has reached or
passed the end of the buffer, and it never changes the buffer. -/
theorem parseLoop_end (reg : Registry) (hreg : RegPres reg) :
    ∀ fuel acc s vs t, stateOk s → parseLoop fuel reg acc s = .ok (vs, t) →
      stateOk t ∧ t.buf = s.buf ∧ t.buf.length ≤ t.pos := by
  intro fuel
  induction fuel with
  | zero =>
      intro acc s vs t _ hrun
      simp [parseLoop, throwE] at hrun
  | succ m ih =>
      intro acc s vs t hok hrun
      simp only [parseLoop] at hrun
      split at hrun
      · rw [bind_apply] at hrun
        cases hc : content m reg none s with
        | error e => rw [hc] at hrun; cases hrun
        | ok p =>
            obtain ⟨v, s₁⟩ := p
            rw [hc] at hrun
            obtain ⟨hok₁, hext⟩ := (presAll reg hreg m).1 none s v s₁ hok hc
            obtain ⟨h1, h2, h3⟩ := ih (acc ++ [v]) s₁ vs t hok₁ hrun
            exact ⟨h1, h2.trans hext.1, h3⟩
      · cases hrun
        rename_i hnlt
        exact ⟨hok, rfl, by omega⟩

/-- C2, amended: when the parse succeeds the cursor is at or past the end of
the (unchanged) buffer; it exceeds it exactly when the last content item was
a block-data item overshooting the end. -/
theorem C2_cursor_at_or_past_end (fuel : Nat) (reg : Registry) (buf : List Nat)
    (vs : List Value) (t : PState) (hreg : RegPres reg)
    (hrun : runParser fuel reg buf = .ok (vs, t)) :
    t.buf = buf ∧ buf.length ≤ t.pos := by
  unfold runParser at hrun
  rw [bind_apply] at hrun
  cases h1 : magic (initState buf) with
  | error e => rw [h1] at hrun; cases hrun
  | ok p =>
      obtain ⟨u1, s₁⟩ := p
      rw [h1] at hrun
      have hok0 : stateOk (initState buf) := by simp [stateOk, initState]
      obtain ⟨hok₁, hext₁⟩ := pres_magic _ _ _ hok0 h1
      have hrun1 : (version >>= fun _ => parseLoop fuel reg []) s₁ = .ok (vs, t) := hrun
      rw [bind_apply] at hrun1
      cases h2 : version s₁ with
      | error e => rw [h2] at hrun1; cases hrun1
      | ok q =>
          obtain ⟨u2, s₂⟩ := q
          rw [h2] at hrun1
          have hrun : parseLoop fuel reg [] s₂ = .ok (vs, t) := hrun1
          obtain ⟨hok₂, hext₂⟩ := pres_version _ _ _ hok₁ h2
          obtain ⟨hok₃, hbuf, hpos⟩ := parseLoop_end reg hreg fuel [] s₂ vs t hok₂ hrun
          have hb : t.buf = buf := by
            rw [hbuf, hext₂.1, hext₁.1]
            simp [initState]
          exact ⟨hb, by rw [← hb]; exact hpos⟩

/-- C2, counterexample.  On `c1buf` the parse succeeds with the cursor at
11 while the buffer has length 6: the cursor is strictly past the end, not
exactly at it as the claim requires. -/
theorem C2_counterexample :
    runParser 20 emptyReg c1buf =
      .ok ([.vBlock []], { buf := c1buf, pos := 11, nextHandle := HBASE, handles := [] }) ∧
    c1buf.length = 6 ∧ (6 : Nat) ≠ 11 :=
  ⟨runParser_c1buf, by decide, by decide⟩

/-- C2, witness: the amended theorem applied to the successful parse of
`c1buf`. -/
theorem C2_cursor_witness :
    ({ buf := c1buf, pos := 11, nextHandle := HBASE, handles := [] } : PState).buf = c1buf ∧
    c1buf.length ≤ ({ buf := c1buf, pos := 11, nextHandle := HBASE, handles := [] } : PState).pos :=
  C2_cursor_at_or_past_end 20 emptyReg c1buf [.vBlock []] _ regPres_empty runParser_c1buf


/-- Whether an error is the unknown-tag error of the dispatcher range
check. -/
def isUnknownTypeErr : Err → Bool
  | .unknownType _ => true
  | _ => false

/-- One unfolding of `content` after a successful tag-byte read. -/
theorem contentF_eval (r : PRec) (allowed : Option (List String)) (s : PState) (b : Nat)
    (hb : byteAt s.buf s.pos = b) (hr : s.pos + 1 ≤ s.buf.length) :
    contentF r allowed s =
      (if (b : Int) - 0x70 < 0 ∨ (names.length : Int) < (b : Int) - 0x70
       then throwE (.unknownType ((b : Int) - 0x70))
       else
         match allowed with
         | some lst =>
             if lst.contains ((names.get? ((b : Int) - 0x70).toNat).getD "undefined")
             then r.dispatchR ((b : Int) - 0x70).toNat
             else throwE (.notAllowed ((names.get? ((b : Int) - 0x70).toNat).getD "undefined"))
         | none => r.dispatchR ((b : Int) - 0x70).toNat) { s with pos := s.pos + 1 } := by
  unfold contentF
  rw [bind_apply, readUInt8_ok s hr, hb]

/-- C7, counterexample.  Tag byte `0x7f` has offset 15, outside the valid
table range 0..14, but the range check `tc > names.length` admits it: the
parse fails with the missing-handler error ("Don't know how to handle
undefined"), not with the unknown-tag error the claim requires. -/
theorem C7_counterexample :
    content 3 emptyReg none (initState [0x7F]) = .error (.noHandler "undefined") ∧
    isUnknownTypeErr (.noHandler "undefined") = false :=
  ⟨by decide, by decide⟩

/-- C7, amended: subtracting 0x70 from the tag byte must land in 0..15 to
pass the range check (which uses `tc > names.length`, one past the table):
bytes below 0x70 or above 0x7f fail with the unknown-tag error; byte 0x7f
(offset 15, just outside the table) passes the range check and fails
instead at the allow-list or handler-lookup stage with the JS string
"undefined" in place of a name; bytes 0x70..0x7e dispatch through the
ordered tag table. -/
theorem C7_tag_range (fuel : Nat) (reg : Registry) (allowed : Option (List String))
    (s : PState) (b : Nat) (hb : byteAt s.buf s.pos = b) (hr : s.pos + 1 ≤ s.buf.length) :
    (b < 0x70 ∨ 0x7f < b →
      content (fuel + 1) reg allowed s = .error (.unknownType ((b : Int) - 0x70))) ∧
    (b = 0x7f →
      content (fuel + 2) reg allowed s =
        .error (match allowed with
                | none => .noHandler "undefined"
                | some lst => if lst.contains "undefined" then .noHandler "undefined"
                              else .notAllowed "undefined")) ∧
    (0x70 ≤ b → b ≤ 0x7e →
      content (fuel + 2) reg none s = dispatch (fuel + 1) reg (b - 0x70)
        { s with pos := s.pos + 1 }) := by
  refine ⟨?_, ?_, ?_⟩
  · intro hcase
    rw [content_succ, contentF_eval _ allowed s b hb hr]
    rw [if_pos (by rw [show names.length = 15 from by decide]
                   rcases hcase with h | h
                   · left; omega
                   · right; omega)]
    rfl
  · intro hcase
    subst hcase
    rw [content_succ, contentF_eval _ allowed s 0x7f hb hr]
    have h15 : names.length = 15 := by decide
    rw [if_neg (by rw [h15]; omega)]
    have hn : (names.get? (((0x7f : Nat) : Int) - 0x70).toNat).getD "undefined" = "undefined" := by
      decide
    match allowed with
    | none => rfl
    | some lst =>
        rw [hn]
        cases hc : lst.contains "undefined"
        · simp only [hc]
          rfl
        · simp only [hc]
          rfl
  · intro h1 h2
    rw [content_succ, contentF_eval _ none s b hb hr]
    rw [if_neg (by rw [show names.length = 15 from by decide]; push_cast; omega)]
    have ht : (((b : Nat) : Int) - 0x70).toNat = b - 0x70 := by omega
    rw [ht]
    rfl

/-- C7, witness: the amended theorem applied to single tag bytes 0x42
(below range), 0x7f (offset 15), and 0x70 (Null). -/
theorem C7_tag_range_witness :
    content 4 emptyReg none (initState [0x42]) = .error (.unknownType (0x42 - 0x70 : Int)) ∧
    content 5 emptyReg none (initState [0x7F]) = .error (.noHandler "undefined") ∧
    content 5 emptyReg none (initState [0x70]) = dispatch 4 emptyReg 0
      { buf := [0x70], pos := 1, nextHandle := HBASE, handles := [] } := by
  refine ⟨?_, ?_, ?_⟩
  · exact (C7_tag_range 3 emptyReg none (initState [0x42]) 0x42 (by decide) (by decide)).1
      (by decide)
  · exact (C7_tag_range 3 emptyReg none (initState [0x7F]) 0x7f (by decide) (by decide)).2.1
      rfl
  · exact (C7_tag_range 3 emptyReg none (initState [0x70]) 0x70 (by decide) (by decide)).2.2
      (by decide) (by decide)


/-- C8.  Short UTF strings (`Parser.utf`) read a 16-bit unsigned big-endian
length prefix and then that many bytes; long UTF strings (`Parser.utfLong`)
read a 64-bit prefix as two 32-bit big-endian words and fail hard with the
cannot-handle-more-than-2^32-bytes error whenever the high word is non-zero,
otherwise read the low word as the length. -/
theorem C8_utf_prefixes (s : PState) :
    (s.pos + 2 ≤ s.buf.length →
      utf s = chunk (256 * byteAt s.buf s.pos + byteAt s.buf (s.pos + 1))
        { s with pos := s.pos + 2 }) ∧
    (s.pos + 4 ≤ s.buf.length →
      16777216 * byteAt s.buf s.pos + 65536 * byteAt s.buf (s.pos + 1) +
        256 * byteAt s.buf (s.pos + 2) + byteAt s.buf (s.pos + 3) ≠ 0 →
      utfLong s = .error .longUtfTooBig) ∧
    (s.pos + 8 ≤ s.buf.length →
      16777216 * byteAt s.buf s.pos + 65536 * byteAt s.buf (s.pos + 1) +
        256 * byteAt s.buf (s.pos + 2) + byteAt s.buf (s.pos + 3) = 0 →
      utfLong s = chunk (16777216 * byteAt s.buf (s.pos + 4) + 65536 * byteAt s.buf (s.pos + 5) +
        256 * byteAt s.buf (s.pos + 6) + byteAt s.buf (s.pos + 7))
        { s with pos := s.pos + 8 }) := by
  refine ⟨?_, ?_, ?_⟩
  · intro h
    unfold utf
    rw [bind_apply, readUInt16_ok s h]
  · intro h hW
    have h1 : utfLong s =
        (if 16777216 * byteAt s.buf s.pos + 65536 * byteAt s.buf (s.pos + 1) +
              256 * byteAt s.buf (s.pos + 2) + byteAt s.buf (s.pos + 3) ≠ 0
         then throwE .longUtfTooBig
         else do
           let n ← readUInt32
           chunk n) { s with pos := s.pos + 4 } := by
      unfold utfLong
      rw [bind_apply, readUInt32_ok s h]
    rw [h1, if_pos hW]
    rfl
  · intro h hW
    have h1 : utfLong s =
        (if 16777216 * byteAt s.buf s.pos + 65536 * byteAt s.buf (s.pos + 1) +
              256 * byteAt s.buf (s.pos + 2) + byteAt s.buf (s.pos + 3) ≠ 0
         then throwE .longUtfTooBig
         else do
           let n ← readUInt32
           chunk n) { s with pos := s.pos + 4 } := by
      unfold utfLong
      rw [bind_apply, readUInt32_ok s (by omega)]
    rw [h1, if_neg (by simp [hW])]
    have h2 : (do
        let n ← readUInt32
        chunk n : M (List Nat)) { s with pos := s.pos + 4 } =
        chunk (16777216 * byteAt s.buf (s.pos + 4) + 65536 * byteAt s.buf (s.pos + 5) +
          256 * byteAt s.buf (s.pos + 6) + byteAt s.buf (s.pos + 7))
          { s with pos := s.pos + 8 } := by
      rw [bind_apply, readUInt32_ok { s with pos := s.pos + 4 }
        (by show s.pos + 4 + 4 ≤ s.buf.length; omega)]
    exact h2

/-- C8, witness: a short UTF at a 3-byte buffer, a long UTF whose high word
is 1, and a long UTF of length 1. -/
theorem C8_utf_prefixes_witness :
    utf { buf := [0, 1, 65], pos := 0, nextHandle := HBASE, handles := [] } =
      chunk 1 { buf := [0, 1, 65], pos := 2, nextHandle := HBASE, handles := [] } ∧
    utfLong { buf := [0, 0, 0, 1], pos := 0, nextHandle := HBASE, handles := [] } =
      .error .longUtfTooBig ∧
    utfLong { buf := [0, 0, 0, 0, 0, 0, 0, 1, 65], pos := 0, nextHandle := HBASE, handles := [] } =
      chunk 1 { buf := [0, 0, 0, 0, 0, 0, 0, 1, 65], pos := 8, nextHandle := HBASE, handles := [] } := by
  refine ⟨(C8_utf_prefixes _).1 (by decide),
    (C8_utf_prefixes _).2.1 (by decide) (by decide),
    (C8_utf_prefixes _).2.2 (by decide) (by decide)⟩


/-- A hexadecimal digit, as the claim's "16 hex digits" requires. -/
def isHexDigit (c : Char) : Bool :=
  (48 ≤ c.toNat && c.toNat ≤ 57) || (97 ≤ c.toNat && c.toNat ≤ 102) ||
    (65 ≤ c.toNat && c.toNat ≤ 70)

/-- Exactly 16 hex digits, the property the claim says registration checks. -/
def isHex16 (sv : String) : Bool :=
  sv.length = 16 && sv.toList.all isHexDigit

/-- C9, counterexample: a serialVersionUID of sixteen letters `z` is not
16 hex digits, yet both registration operations accept it, storing the entry
under `className@serialVersionUID`. -/
theorem C9_counterexample :
    isHex16 "zzzzzzzzzzzzzzzz" = false ∧
    registerClassDataParser ([] : List (String × Unit)) "com.example.Foo" "zzzzzzzzzzzzzzzz" () =
      .ok (setAssoc [] ("com.example.Foo" ++ "@" ++ "zzzzzzzzzzzzzzzz") ()) ∧
    registerPostProcessor ([] : List (String × Unit)) "com.example.Foo" "zzzzzzzzzzzzzzzz" () =
      .ok (setAssoc [] ("com.example.Foo" ++ "@" ++ "zzzzzzzzzzzzzzzz") ()) :=
  ⟨by decide, rfl, rfl⟩

/-- C9, amended: both registration operations check only that the
serialVersionUID string has length 16 — registration succeeds for any
16-character string, hex digits or not, storing the entry under the key
`className@serialVersionUID`, and fails at registration time exactly when
the length differs from 16. -/
theorem C9_registration_checks_length_only {pt : Type} (store : List (String × pt))
    (className serialVersionUID : String) (p : pt) :
    (serialVersionUID.length = 16 →
      registerClassDataParser store className serialVersionUID p =
        .ok (setAssoc store (className ++ "@" ++ serialVersionUID) p) ∧
      registerPostProcessor store className serialVersionUID p =
        .ok (setAssoc store (className ++ "@" ++ serialVersionUID) p)) ∧
    (serialVersionUID.length ≠ 16 →
      registerClassDataParser store className serialVersionUID p = .error .assertFailed ∧
      registerPostProcessor store className serialVersionUID p = .error .assertFailed) := by
  refine ⟨fun h => ⟨?_, ?_⟩, fun h => ⟨?_, ?_⟩⟩
  · unfold registerClassDataParser
    rw [if_pos h]
  · unfold registerPostProcessor
    rw [if_pos h]
  · unfold registerClassDataParser
    rw [if_neg h]
  · unfold registerPostProcessor
    rw [if_neg h]

/-- C9, witness: a 16-character UID registers; a 3-character UID fails. -/
theorem C9_registration_checks_length_only_witness :
    (("0123456789abcdef" : String).length = 16 ∧
      registerClassDataParser ([] : List (String × Unit)) "A" "0123456789abcdef" () =
        .ok (setAssoc [] ("A" ++ "@" ++ "0123456789abcdef") ())) ∧
    (("abc" : String).length ≠ 16 ∧
      registerPostProcessor ([] : List (String × Unit)) "A" "abc" () =
        .error .assertFailed) :=
  ⟨⟨by decide,
    ((C9_registration_checks_length_only [] "A" "0123456789abcdef" ()).1 (by decide)).1⟩,
   ⟨by decide,
    ((C9_registration_checks_length_only [] "A" "abc" ()).2 (by decide)).2⟩⟩

/-- C10: a Reference tag whose 32-bit handle was never assigned — below the
handle base or at or past the next free handle slot — does not fail: the
unguarded lookup yields the undefined value, returned as the content item. -/
theorem C10_unassigned_reference_undefined (s : PState) (i : Int)
    (h4 : s.pos + 4 ≤ s.buf.length)
    (hi : toSigned 32 (16777216 * byteAt s.buf s.pos + 65536 * byteAt s.buf (s.pos + 1) +
      256 * byteAt s.buf (s.pos + 2) + byteAt s.buf (s.pos + 3)) = i)
    (hout : i < (HBASE : Int) ∨ (HBASE : Int) + s.handles.length ≤ i) :
    referenceH s = .ok (.vUndefined, { s with pos := s.pos + 4 }) := by
  have hri : readInt32 s = .ok (i, { s with pos := s.pos + 4 }) := by
    unfold readInt32
    rw [bind_apply, readUInt32_ok s h4]
    subst hi
    rfl
  have hl : lookupHandle { s with pos := s.pos + 4 } i = .vUndefined := by
    unfold lookupHandle
    rcases hout with h | h
    · rw [if_pos h]
    · rw [if_neg (by omega)]
      have hg : ({ s with pos := s.pos + 4 } : PState).handles.get? (i.toNat - HBASE) = none :=
        List.get?_eq_none.mpr (by show s.handles.length ≤ i.toNat - HBASE; omega)
      rw [hg]
  unfold referenceH
  rw [bind_apply, hri, ← hl]
  rfl

/-- C10, witness: reading handle 0x7E0000 from an empty handle table. -/
theorem C10_unassigned_reference_undefined_witness :
    referenceH { buf := [0, 126, 0, 0], pos := 0, nextHandle := HBASE, handles := [] } =
      .ok (.vUndefined, { buf := [0, 126, 0, 0], pos := 4, nextHandle := HBASE, handles := [] }) :=
  C10_unassigned_reference_undefined _ 8257536 (by decide) (by decide) (Or.inr (by decide))


/-- Reading the element written at position `n` after `List.set` at `n`. -/
theorem get?_set_self {at2 : Type} (l : List at2) (n : Nat) (a : at2) (h : n < l.length) :
    (l.set n a).get? n = some a := by
  rw [List.get?_eq_get (by simpa using h)]
  simp

/-- The state after the Enum handler's deferred-handle reservation: one new
slot holding the null placeholder. -/
def reserveSlot (s₁ : PState) : PState :=
  { s₁ with nextHandle := s₁.nextHandle + 1, handles := s₁.handles ++ [Cell.imm Value.vNull] }

/-- The result state of the Enum handler: the heap after the constant read,
with the reserved slot overwritten by the enum wrapper. -/
def enumFill (s₂ : PState) (j : Nat) (c cd : Value) : PState :=
  { s₂ with handles := s₂.handles.set j (.enumc { constant := c, classD := cd }) }

/-- C3.  The Enum handler reserves a handle slot — filled with a null
placeholder — after the class descriptor but before the constant is read, so
the slot is visible to any back reference met while the constant's name is
read; after construction the slot is overwritten with the enum wrapper (the
deferred-handle fill), the handler returns a reference to that slot, and in
every later state that extends the result heap a Reference carrying the
enum's handle still resolves to it. -/
theorem C3_enum_deferred_handle (fuel : Nat) (reg : Registry) (hreg : RegPres reg)
    (s s₁ s₂ : PState) (cd c : Value)
    (hcd : content fuel reg (some classDescAllowed) s = .ok (cd, s₁))
    (hc : content fuel reg none (reserveSlot s₁) = .ok (c, s₂))
    (hok : stateOk s₁) :
    enumH (fuel + 1) reg s =
      .ok (.vRef s₁.nextHandle, enumFill s₂ (s₁.nextHandle - HBASE) c cd) ∧
    (s₁.handles ++ [Cell.imm Value.vNull]).get? (s₁.nextHandle - HBASE) =
      some (Cell.imm Value.vNull) ∧
    ∀ t, HeapExt (enumFill s₂ (s₁.nextHandle - HBASE) c cd) t →
      lookupHandle t (s₁.nextHandle : Int) = .vRef s₁.nextHandle := by
  have hj : s₁.nextHandle - HBASE = s₁.handles.length := by
    unfold stateOk at hok
    omega
  have hok1 : stateOk (reserveSlot s₁) := by
    unfold stateOk at hok ⊢
    unfold reserveSlot
    simp only [List.length_append, List.length_cons, List.length_nil]
    omega
  have hext : HeapExt (reserveSlot s₁) s₂ :=
    (((presAll reg hreg fuel).1 none) _ _ _ hok1 hc).2
  have hlen : s₁.handles.length + 1 ≤ s₂.handles.length := by
    have h2 := hext.2.1
    unfold reserveSlot at h2
    simpa using h2
  unfold content at hcd hc
  refine ⟨?_, ?_, ?_⟩
  · rw [enumH_succ]
    unfold enumF
    rw [bind_apply, hcd]
    show (do
        let idx ← allocCell (.imm .vNull)
        let c2 ← (parserRec reg fuel).contentR none
        fillCell idx (.enumc { constant := c2, classD := cd })
        pure (.vRef idx) : M Value) s₁ =
      .ok (.vRef s₁.nextHandle, enumFill s₂ (s₁.nextHandle - HBASE) c cd)
    rw [bind_apply]
    show (do
        let c2 ← (parserRec reg fuel).contentR none
        fillCell s₁.nextHandle (.enumc { constant := c2, classD := cd })
        pure (.vRef s₁.nextHandle) : M Value) (reserveSlot s₁) =
      .ok (.vRef s₁.nextHandle, enumFill s₂ (s₁.nextHandle - HBASE) c cd)
    rw [bind_apply, hc]
    unfold enumFill
    rfl
  · rw [hj]
    exact List.get?_concat_length _ _
  · intro t ht
    unfold enumFill at ht
    have htn : ((s₁.nextHandle : Nat) : Int).toNat = s₁.nextHandle := by omega
    have hnb : ¬ ((s₁.nextHandle : Nat) : Int) < (HBASE : Int) := by
      unfold stateOk at hok
      omega
    have hsl : (s₂.handles.set (s₁.nextHandle - HBASE)
        (.enumc { constant := c, classD := cd })).get? (s₁.handles.length) =
        some (.enumc { constant := c, classD := cd }) := by
      rw [← hj]
      exact get?_set_self _ _ _ (by omega)
    have htt : t.handles.get? (s₁.handles.length) =
        some (.enumc { constant := c, classD := cd }) := by
      rw [ht.2.2 _ (by simpa using (by omega : s₁.handles.length < s₂.handles.length))]
      exact hsl
    unfold lookupHandle
    rw [if_neg hnb, htn, hj, htt]
    rfl

/-- C3, witness: a null-class enum whose constant is the short string "A";
fuel 3 suffices and the deferred slot is handle 0x7E0000. -/
theorem C3_enum_deferred_handle_witness :
    enumH 3 emptyReg { buf := [0x70, 0x74, 0, 1, 0x41], pos := 0, nextHandle := HBASE, handles := [] } =
      .ok (.vRef HBASE, { buf := [0x70, 0x74, 0, 1, 0x41], pos := 5, nextHandle := HBASE + 2, handles := [.enumc { constant := .vStr [65], classD := .vNull }, .imm (.vStr [65])] }) ∧
    (([] : List Cell) ++ [Cell.imm Value.vNull]).get? (HBASE - HBASE) =
      some (Cell.imm Value.vNull) ∧
    lookupHandle { buf := [0x70, 0x74, 0, 1, 0x41], pos := 5, nextHandle := HBASE + 2, handles := [.enumc { constant := .vStr [65], classD := .vNull }, .imm (.vStr [65])] } (HBASE : Int) = .vRef HBASE := by
  have h := C3_enum_deferred_handle 2 emptyReg regPres_empty
    { buf := [0x70, 0x74, 0, 1, 0x41], pos := 0, nextHandle := HBASE, handles := [] }
    { buf := [0x70, 0x74, 0, 1, 0x41], pos := 1, nextHandle := HBASE, handles := [] }
    { buf := [0x70, 0x74, 0, 1, 0x41], pos := 5, nextHandle := HBASE + 2, handles := [.imm .vNull, .imm (.vStr [65])] }
    Value.vNull (Value.vStr [65]) (by decide) (by decide) (by unfold stateOk; decide)
  exact ⟨h.1, h.2.1, h.2.2 _ ⟨rfl, by decide, fun i _ => rfl⟩⟩


/-- C4.  Handle discipline: (i) `newHandle` assigns the next handle counter
— which on every well-formed state equals 0x7E0000 plus the number of handles
created so far, so assignment is in strict creation order from 0x7E0000 —
and appends the value as a fresh slot; (ii) a completed content run never
changes a previously assigned slot (the deferred-handle fill of the Enum
handler only ever writes the slot reserved inside the same handler frame);
(iii) a subsequent Reference tag carrying handle `h` whose slot holds the
immediate value `v` yields exactly that value `v` again. -/
theorem C4_handle_order_and_identity (fuel : Nat) (reg : Registry) (hreg : RegPres reg) :
    (∀ s v, stateOk s →
      newHandle v s =
        .ok (v, { s with handles := s.handles ++ [Cell.imm v], nextHandle := s.nextHandle + 1 }) ∧
      s.nextHandle = HBASE + s.handles.length) ∧
    (∀ allowed s a t, stateOk s → content fuel reg allowed s = .ok (a, t) →
      stateOk t ∧ HeapExt s t) ∧
    (∀ t h v, HBASE ≤ h → h < 2 ^ (32 - 1) →
      t.handles.get? (h - HBASE) = some (Cell.imm v) →
      t.pos + 4 ≤ t.buf.length →
      16777216 * byteAt t.buf t.pos + 65536 * byteAt t.buf (t.pos + 1) +
        256 * byteAt t.buf (t.pos + 2) + byteAt t.buf (t.pos + 3) = h →
      referenceH t = .ok (v, { t with pos := t.pos + 4 })) := by
  refine ⟨fun s v hok => ⟨rfl, hok⟩,
    fun allowed s a t hok hr => (presAll reg hreg fuel).1 allowed s a t hok hr,
    ?_⟩
  intro t h v hh1 hh2 hget h4 hb
  have hri : readInt32 t = .ok ((h : Int), { t with pos := t.pos + 4 }) := by
    unfold readInt32
    rw [bind_apply, readUInt32_ok t h4, hb]
    show (pure (toSigned 32 h) : M Int) { t with pos := t.pos + 4 } = _
    unfold toSigned
    rw [if_pos hh2]
    rfl
  have hl : ∀ u : PState, u.handles = t.handles → lookupHandle u (h : Int) = v := by
    intro u hu
    unfold lookupHandle
    rw [if_neg (by omega), show (((h : Nat) : Int)).toNat = h from by omega, hu, hget]
    rfl
  unfold referenceH
  rw [bind_apply, hri, ← hl { t with pos := t.pos + 4 } rfl]
  rfl

/-- C4, witness: a fresh handle on the empty heap is 0x7E0000; a Null
content read preserves the (empty) heap; a Reference carrying 0x7E0000
returns the string stored in slot 0. -/
theorem C4_handle_order_and_identity_witness :
    (newHandle .vNull { buf := [], pos := 0, nextHandle := HBASE, handles := [] } =
      .ok (.vNull, { buf := [], pos := 0, nextHandle := HBASE + 1, handles := [Cell.imm Value.vNull] }) ∧
      HBASE = HBASE + ([] : List Cell).length) ∧
    (stateOk { buf := [0x70], pos := 1, nextHandle := HBASE, handles := [] } ∧
      HeapExt { buf := [0x70], pos := 0, nextHandle := HBASE, handles := [] }
        { buf := [0x70], pos := 1, nextHandle := HBASE, handles := [] }) ∧
    referenceH { buf := [0, 126, 0, 0], pos := 0, nextHandle := HBASE + 1, handles := [Cell.imm (Value.vStr [65])] } =
      .ok (.vStr [65], { buf := [0, 126, 0, 0], pos := 4, nextHandle := HBASE + 1, handles := [Cell.imm (Value.vStr [65])] }) :=
  ⟨(C4_handle_order_and_identity 2 emptyReg regPres_empty).1 _ .vNull (by unfold stateOk; decide),
   (C4_handle_order_and_identity 2 emptyReg regPres_empty).2.1 none _ .vNull _
     (by unfold stateOk; decide) (by decide),
   (C4_handle_order_and_identity 2 emptyReg regPres_empty).2.2 _ HBASE (.vStr [65])
     (by decide) (by decide) (by decide) (by decide) (by decide)⟩


/-- C6.  `Parser.classdata` dispatches on the low nibble of the class flags:
mode 0x02 reads default field values (the declared field list in order, no
annotation block); mode 0x03 runs the registered custom class-data parser if
present, else default values, then reads an annotation block, stores it on
the result under the key "@", and lets a registered post-processor replace
the result; mode 0x04 is fatal; mode 0x0C yields exactly `{"@": annotations}`;
every other low nibble is fatal. -/
theorem C6_classdata_modes (fuel : Nat) (reg : Registry) (clsVal : Value) (s : PState)
    (d : DescRec) (fl : Nat)
    (hd : derefDesc s clsVal = some d) (hfl : d.flags = some fl) :
    (fl &&& 15 = 2 → classdata (fuel + 2) reg clsVal s = values (fuel + 1) reg clsVal s ∧
      ∀ fds, d.fields = some fds →
        values (fuel + 1) reg clsVal s = valsLoop fuel reg fds [] s) ∧
    (fl &&& 15 = 3 → classdata (fuel + 2) reg clsVal s = (do
        let res ← (match reg.cdp d.name d.serialVersionUID with
                   | some p => p d
                   | none => values (fuel + 1) reg clsVal)
        let data ← annotations (fuel + 1) reg
        let res2 := setAssoc res atKey (.vList data)
        (match reg.cpp d.name d.serialVersionUID with
         | some q => q d res2 data
         | none => pure res2) : M PropMap) s) ∧
    (fl &&& 15 = 4 → classdata (fuel + 2) reg clsVal s = .error .version1External) ∧
    (fl &&& 15 = 12 → classdata (fuel + 2) reg clsVal s = (do
        let data ← annotations (fuel + 1) reg
        pure [(atKey, .vList data)] : M PropMap) s) ∧
    (fl &&& 15 ≠ 2 → fl &&& 15 ≠ 3 → fl &&& 15 ≠ 4 → fl &&& 15 ≠ 12 →
      classdata (fuel + 2) reg clsVal s = .error (.unknownFlags fl)) := by
  have hop : classdata (fuel + 2) reg clsVal = classdataF reg (parserRec reg (fuel + 1)) clsVal :=
    rfl
  refine ⟨fun h2 => ⟨?_, ?_⟩, fun h3 => ?_, fun h4 => ?_, fun h12 => ?_,
    fun n2 n3 n4 n12 => ?_⟩
  · rw [hop]
    unfold classdataF
    rw [bind_apply]
    simp only [getS, hd, hfl, h2]
    rfl
  · intro fds hfds
    rw [values_succ fuel reg clsVal]
    unfold valuesF
    rw [bind_apply]
    simp only [getS, hd, hfds]
    rfl
  · rw [hop]
    unfold classdataF
    rw [bind_apply]
    simp only [getS, hd, hfl, h3]
    rfl
  · rw [hop]
    unfold classdataF
    rw [bind_apply]
    simp only [getS, hd, hfl, h4]
    rfl
  · rw [hop]
    unfold classdataF
    rw [bind_apply]
    simp only [getS, hd, hfl, h12]
    rfl
  · rw [hop]
    unfold classdataF
    rw [bind_apply]
    simp only [getS, hd, hfl]
    have hle : fl &&& 15 ≤ 15 := Nat.and_le_right
    generalize hv : fl &&& 15 = v at n2 n3 n4 n12 hle ⊢
    interval_cases v
    all_goals rfl

/-- A serializable class descriptor with flags 2 and one int field "f". -/
def c6desc : DescRec :=
  { name := [67], serialVersionUID := [1, 2, 3, 4, 5, 6, 7, 8], flags := some 2,
    fields := some [{ type := 73, name := [102] }], annotations := some [],
    superD := some Value.vNull }

/-- A state whose single handle is `c6desc` and whose buffer holds the int
value 123. -/
def c6state : PState :=
  { buf := [0, 0, 0, 123], pos := 0, nextHandle := HBASE + 1, handles := [Cell.desc c6desc] }

/-- C6, witness: flags 2 sends classdata to the default-values reader over
the declared field list. -/
theorem C6_classdata_modes_witness :
    classdata 3 emptyReg (.vRef HBASE) c6state = values 2 emptyReg (.vRef HBASE) c6state ∧
    values 2 emptyReg (.vRef HBASE) c6state =
      valsLoop 1 emptyReg [{ type := 73, name := [102] }] [] c6state := by
  have h := C6_classdata_modes 1 emptyReg (.vRef HBASE) c6state c6desc 2 (by decide) rfl
  exact ⟨(h.1 (by decide)).1, (h.1 (by decide)).2 _ rfl⟩


/-- `listModify` at an occupied slot is `List.set` of the modified cell. -/
theorem listModify_eq_set (f : Cell → Cell) :
    ∀ (i : Nat) (l : List Cell) (c : Cell), l.get? i = some c →
      listModify f i l = l.set i (f c) := by
  intro i l
  induction l generalizing i with
  | nil => intro c hc; simp at hc
  | cons c0 rest ih =>
      intro c hc
      cases i with
      | zero =>
          simp only [List.get?_cons_zero, Option.some.injEq] at hc
          subst hc
          rfl
      | succ j =>
          simp only [List.get?_cons_succ] at hc
          show c0 :: listModify f j rest = c0 :: rest.set j (f c)
          rw [ih j c hc]

/-- Reading back the key just written by `setAssoc`. -/
theorem lookupA_setAssoc_self {kt bt : Type} [DecidableEq kt] :
    ∀ (m : List (kt × bt)) (k : kt) (v : bt), lookupA (setAssoc m k v) k = some v := by
  intro m k v
  induction m with
  | nil => simp [setAssoc, lookupA]
  | cons kv rest ih =>
      obtain ⟨k0, v0⟩ := kv
      by_cases h : k0 = k
      · subst h
        simp [setAssoc, lookupA]
      · simp [setAssoc, lookupA, h, ih]

/-- `setAssoc` leaves every other key's first binding unchanged. -/
theorem lookupA_setAssoc_ne {kt bt : Type} [DecidableEq kt] :
    ∀ (m : List (kt × bt)) (k k2 : kt) (v : bt), k2 ≠ k →
      lookupA (setAssoc m k v) k2 = lookupA m k2 := by
  intro m k k2 v hne
  have hne2 : ¬ k = k2 := fun h => hne h.symm
  induction m with
  | nil => simp [setAssoc, lookupA, hne2]
  | cons kv rest ih =>
      obtain ⟨k0, v0⟩ := kv
      by_cases h : k0 = k
      · subst h
        have hne3 : ¬ k0 = k2 := fun h2 => hne h2.symm
        simp [setAssoc, lookupA, hne3]
      · simp [setAssoc, lookupA, h, ih]

/-- A fresh key is appended by `setAssoc` after all existing entries. -/
theorem setAssoc_append {kt bt : Type} [DecidableEq kt] :
    ∀ (m : List (kt × bt)) (k : kt) (v : bt), lookupA m k = none →
      setAssoc m k v = m ++ [(k, v)] := by
  intro m k v
  induction m with
  | nil => intro _; rfl
  | cons kv rest ih =>
      obtain ⟨k0, v0⟩ := kv
      intro h
      by_cases h0 : k0 = k
      · subst h0
        simp [lookupA] at h
      · have h1 : lookupA rest k = none := by simpa [lookupA, h0] using h
        show (if k0 = k then (k0, v) :: rest else (k0, v0) :: setAssoc rest k v) = _
        rw [if_neg h0, ih h1]
        rfl

/-- The value of the LAST binding of a key in a property list (JS property
assignment semantics: later writes win). -/
def lastVal {kt bt : Type} [DecidableEq kt] : List (kt × bt) → kt → Option bt
  | [], _ => none
  | (k0, v0) :: rest, k =>
      match lastVal rest k with
      | some v => some v
      | none => if k0 = k then some v0 else none

/-- Folding `setAssoc` over a property list: every key written ends at its
last written value (shadowing any initial binding); unwritten keys keep the
initial map's binding. -/
theorem lookupA_foldl_setAssoc {kt bt : Type} [DecidableEq kt] (k : kt) :
    ∀ (fv m0 : List (kt × bt)),
      lookupA (fv.foldl (fun m kv => setAssoc m kv.1 kv.2) m0) k =
        (match lastVal fv k with
         | some v => some v
         | none => lookupA m0 k) := by
  intro fv
  induction fv with
  | nil => intro m0; rfl
  | cons kv rest ih =>
      intro m0
      obtain ⟨k0, v0⟩ := kv
      show lookupA (rest.foldl (fun m kv => setAssoc m kv.1 kv.2) (setAssoc m0 k0 v0)) k = _
      rw [ih (setAssoc m0 k0 v0)]
      cases hlv : lastVal rest k with
      | some v => simp [lastVal, hlv]
      | none =>
          simp only [lastVal, hlv]
          by_cases h : k0 = k
          · subst h
            simp [lookupA_setAssoc_self]
          · simp [h, lookupA_setAssoc_ne _ _ _ _ (fun he => h he.symm)]

/-- The object record after the per-class copy loop: the flat field map is
updated entry by entry, later entries overwriting earlier ones. -/
def objFlat (o : ObjRec) (fv : PropMap) : ObjRec where
  classD := o.classD
  extendsM := o.extendsM
  fieldsM := fv.foldl (fun m kv => setAssoc m kv.1 kv.2) o.fieldsM

/-- The object record after one class's class-data store: the per-class
value is recorded under the class name and its entries are copied into the
flat field map. -/
def objStore (o : ObjRec) (nm : List Nat) (fv : PropMap) : ObjRec where
  classD := o.classD
  extendsM := setAssoc o.extendsM nm fv
  fieldsM := fv.foldl (fun m kv => setAssoc m kv.1 kv.2) o.fieldsM

/-- Effect of `copyProps` on the object slot (the `for (const name in
fields) obj[name] = fields[name]` loop of `recursiveClassData`). -/
theorem copyProps_eval (hObj j : Nat) (hj : hObj - HBASE = j) :
    ∀ (fv : PropMap) (t : PState) (o : ObjRec),
      (∀ kv ∈ fv, kv.1 ≠ classKey ∧ kv.1 ≠ extendsKey) →
      t.handles.get? j = some (.obj o) →
      copyProps hObj fv t =
        .ok ((), { t with handles := t.handles.set j (.obj (objFlat o fv)) }) := by
  intro fv
  induction fv with
  | nil =>
      intro t o _ ho
      have hlen : j < t.handles.length := by
        by_contra hcon
        rw [List.get?_eq_none.mpr (by omega)] at ho
        exact Option.noConfusion ho
      have hset : t.handles.set j (.obj o) = t.handles := by
        apply List.ext
        intro n
        by_cases hn : n = j
        · subst hn
          rw [get?_set_self _ _ _ hlen, ho]
        · exact List.get?_set_ne _ _ (fun he => hn he.symm)
      rw [show objFlat o [] = o from rfl, hset]
      rfl
  | cons kv rest ih =>
      intro t o hkeys ho
      obtain ⟨k, v⟩ := kv
      have hk := hkeys (k, v) (List.mem_cons_self _ _)
      have hlen : j < t.handles.length := by
        by_contra hcon
        rw [List.get?_eq_none.mpr (by omega)] at ho
        exact Option.noConfusion ho
      unfold copyProps
      rw [if_neg (not_or.mpr ⟨hk.1, hk.2⟩)]
      have hmod : modifyCell hObj (updObj fun o2 => { o2 with fieldsM := setAssoc o2.fieldsM k v }) t =
          .ok ((), { t with handles := t.handles.set j (.obj { o with fieldsM := setAssoc o.fieldsM k v }) }) := by
        unfold modifyCell
        rw [hj, listModify_eq_set _ _ _ _ ho]
        rfl
      rw [bind_apply, hmod]
      show copyProps hObj rest { t with handles := t.handles.set j (.obj { o with fieldsM := setAssoc o.fieldsM k v }) } = _
      rw [ih _ _ (fun kv2 hm => hkeys kv2 (List.mem_cons_of_mem _ hm))
        (get?_set_self _ _ _ hlen)]
      rw [List.set_set]
      rfl

/-- A serialVersionUID used by the C5 example descriptors. -/
def c5uid : List Nat := [1, 2, 3, 4, 5, 6, 7, 8]

/-- An externalizable (flags 0x0C) class descriptor "A" that nevertheless
declares one int field "f". -/
def c5xdesc : DescRec :=
  { name := [65], serialVersionUID := c5uid, flags := some 12,
    fields := some [{ type := 73, name := [102] }], annotations := some [],
    superD := some Value.vNull }

/-- A state holding `c5xdesc` and a fresh object, with an empty annotation
block (tag 0x78) in the buffer. -/
def c5xstate : PState :=
  { buf := [0x78], pos := 0, nextHandle := HBASE + 2,
    handles := [Cell.desc c5xdesc, Cell.obj { classD := Value.vRef HBASE }] }

/-- C5, counterexample: for the externalizable class "A" the per-class value
stored under extends["A"] is `{"@": []}` — its key list is `["@"]`, not the
declared field list `["f"]`, refuting "each per-class value's keys match
that class's field list". -/
theorem C5_counterexample :
    recursiveClassData 5 emptyReg (.vRef HBASE) (HBASE + 1) c5xstate =
      .ok ((), { buf := [0x78], pos := 1, nextHandle := HBASE + 2, handles := [Cell.desc c5xdesc, Cell.obj { classD := Value.vRef HBASE, extendsM := [([65], [([64], Value.vList [])])], fieldsM := [([64], Value.vList [])] }] }) ∧
    [([64], Value.vList [])].map Prod.fst ≠ (c5xdesc.fields.getD []).map FieldDesc.name :=
  ⟨by decide, by decide⟩

/-- C5, amended.  For a class with a truthy super, `recursiveClassData`
first processes the full super chain (root first), then reads this class's
data, stores it under extends[name] — appended after all inherited entries
when the name is new, readable back unshadowed, leaving every other class
name's entry untouched — and copies its entries onto the flat field map
where the last write wins, so this (deeper) class shadows same-named fields
of shallower classes while unwritten keys keep the shallower classes'
values.  (The per-class value's keys match the field list only for plain
mode-2 serializable classes; write-method and externalizable classes carry
the annotation key "@", see the counterexample.) -/
theorem C5_extends_structure (fuel : Nat) (reg : Registry) (clsVal : Value) (hObj : Nat)
    (s : PState) (d : DescRec) (sup : Value) (s₁ s₂ : PState) (fv : PropMap) (o : ObjRec)
    (hd : derefDesc s clsVal = some d)
    (hsup : d.superD = some sup) (htr : truthy sup = true)
    (hrec : recursiveClassData fuel reg sup hObj s = .ok ((), s₁))
    (hcd : classdata fuel reg clsVal s₁ = .ok (fv, s₂))
    (ho : s₂.handles.get? (hObj - HBASE) = some (.obj o))
    (hkeys : ∀ kv ∈ fv, kv.1 ≠ classKey ∧ kv.1 ≠ extendsKey) :
    recursiveClassData (fuel + 1) reg clsVal hObj s =
      .ok ((), { s₂ with handles := s₂.handles.set (hObj - HBASE) (.obj (objStore o d.name fv)) }) ∧
    (lookupA o.extendsM d.name = none →
      setAssoc o.extendsM d.name fv = o.extendsM ++ [(d.name, fv)]) ∧
    lookupA (setAssoc o.extendsM d.name fv) d.name = some fv ∧
    (∀ k, k ≠ d.name → lookupA (setAssoc o.extendsM d.name fv) k = lookupA o.extendsM k) ∧
    (∀ k v2, lastVal fv k = some v2 →
      lookupA (fv.foldl (fun m kv => setAssoc m kv.1 kv.2) o.fieldsM) k = some v2) ∧
    (∀ k, lastVal fv k = none →
      lookupA (fv.foldl (fun m kv => setAssoc m kv.1 kv.2) o.fieldsM) k = lookupA o.fieldsM k) := by
  have hop : recursiveClassData (fuel + 1) reg clsVal hObj =
      recursiveClassDataF (parserRec reg fuel) clsVal hObj := rfl
  unfold recursiveClassData at hrec
  unfold classdata at hcd
  have hlen : hObj - HBASE < s₂.handles.length := by
    by_contra hcon
    rw [List.get?_eq_none.mpr (by omega)] at ho
    exact Option.noConfusion ho
  refine ⟨?_, fun hnew => setAssoc_append _ _ _ hnew, lookupA_setAssoc_self _ _ _,
    fun k hk => lookupA_setAssoc_ne _ _ _ _ hk,
    fun k v2 h => by rw [lookupA_foldl_setAssoc k fv o.fieldsM]; simp [h],
    fun k h => by rw [lookupA_foldl_setAssoc k fv o.fieldsM]; simp [h]⟩
  rw [hop]
  generalize hj : hObj - HBASE = j at ho hlen ⊢
  unfold recursiveClassDataF
  rw [bind_apply]
  simp only [getS, hd, hsup, htr, if_true]
  rw [bind_apply, hrec]
  show (do
      let fv2 ← (parserRec reg fuel).classdataR clsVal
      modifyCell hObj (updObj fun o2 => { o2 with extendsM := setAssoc o2.extendsM d.name fv2 })
      copyProps hObj fv2 : M Unit) s₁ =
    .ok ((), { s₂ with handles := s₂.handles.set j (.obj (objStore o d.name fv)) })
  rw [bind_apply, hcd]
  show (do
      modifyCell hObj (updObj fun o2 => { o2 with extendsM := setAssoc o2.extendsM d.name fv })
      copyProps hObj fv : M Unit) s₂ =
    .ok ((), { s₂ with handles := s₂.handles.set j (.obj (objStore o d.name fv)) })
  have hmod : modifyCell hObj (updObj fun o2 => { o2 with extendsM := setAssoc o2.extendsM d.name fv }) s₂ =
      .ok ((), { s₂ with handles := s₂.handles.set j (.obj { o with extendsM := setAssoc o.extendsM d.name fv }) }) := by
    unfold modifyCell
    rw [hj, listModify_eq_set _ _ _ _ ho]
    rfl
  rw [bind_apply, hmod]
  show copyProps hObj fv { s₂ with handles := s₂.handles.set j (.obj { o with extendsM := setAssoc o.extendsM d.name fv }) } = _
  rw [copyProps_eval hObj j hj fv _ _ hkeys (get?_set_self _ _ _ hlen)]
  rw [List.set_set]
  rfl

/-- A root serializable class "S" with no fields. -/
def c5descS : DescRec :=
  { name := [83], serialVersionUID := c5uid, flags := some 2, fields := some [],
    annotations := some [], superD := some Value.vNull }

/-- A derived serializable class "D" with one int field "f", extending "S". -/
def c5descD : DescRec :=
  { name := [68], serialVersionUID := c5uid, flags := some 2,
    fields := some [{ type := 73, name := [102] }], annotations := some [],
    superD := some (Value.vRef HBASE) }

/-- The starting state for the C5 witness: descriptors "S" and "D" and a
fresh object of class "D"; the buffer holds D's int field value 123. -/
def c5s : PState :=
  { buf := [0, 0, 0, 123], pos := 0, nextHandle := HBASE + 3,
    handles := [Cell.desc c5descS, Cell.desc c5descD, Cell.obj { classD := Value.vRef (HBASE + 1) }] }

/-- The state after the super chain of "D" (the fieldless run of "S"). -/
def c5s1 : PState :=
  { buf := [0, 0, 0, 123], pos := 0, nextHandle := HBASE + 3,
    handles := [Cell.desc c5descS, Cell.desc c5descD, Cell.obj { classD := Value.vRef (HBASE + 1), extendsM := [([83], [])] }] }

/-- The state after reading D's own field values. -/
def c5s2 : PState :=
  { buf := [0, 0, 0, 123], pos := 4, nextHandle := HBASE + 3,
    handles := [Cell.desc c5descS, Cell.desc c5descD, Cell.obj { classD := Value.vRef (HBASE + 1), extendsM := [([83], [])] }] }

/-- C5, witness: the two-class chain S ← D; D's per-class value is appended
after S's entry and its field "f" lands on the flat map. -/
theorem C5_extends_structure_witness :
    recursiveClassData 5 emptyReg (.vRef (HBASE + 1)) (HBASE + 2) c5s =
      .ok ((), { buf := [0, 0, 0, 123], pos := 4, nextHandle := HBASE + 3, handles := [Cell.desc c5descS, Cell.desc c5descD, Cell.obj { classD := Value.vRef (HBASE + 1), extendsM := [([83], []), ([68], [([102], Value.vPrim (.pInt 123))])], fieldsM := [([102], Value.vPrim (.pInt 123))] }] }) ∧
    lookupA (setAssoc [([83], ([] : PropMap))] [68] [([102], Value.vPrim (.pInt 123))]) [68] =
      some [([102], Value.vPrim (.pInt 123))] := by
  have h := C5_extends_structure 4 emptyReg (.vRef (HBASE + 1)) (HBASE + 2) c5s c5descD
    (.vRef HBASE) c5s1 c5s2 [([102], Value.vPrim (.pInt 123))]
    { classD := Value.vRef (HBASE + 1), extendsM := [([83], [])] }
    (by decide) rfl (by decide) (by decide) (by decide) (by decide) (by decide)
  exact ⟨h.1, h.2.2.1⟩

end NJD
